import Mathlib

/-!
Verification development for the GhostMarket NFT contract
(src/contracts/NEP11/GhostMarket.NFT.py, a neo3-boa / NEP-11 smart contract).

Shallow embedding conventions:

* The Neo storage is a flat key-value store.  We model it as an association
  list from byte-string keys to values, with functional `sget` / `sput` /
  `sdel` mirroring the host `get` / `put` / `delete` primitives.  `put`
  overwrites, `get` of a missing key yields the empty byte string (which
  `to_int` reads as 0 and `to_bool` as false).
* Stored values are modelled by the inductive `Val`: `Val.int` for integers
  (the NeoVM stores integers via their minimal little-endian two's-complement
  encoding, which round-trips `put`/`get ... .to_int()` exactly) and
  `Val.bytes` for byte strings.  `boa3` booleans are stored as the integers
  0/1.
* `check_witness` is the host authorization oracle; we model it as a boolean
  oracle `w` over 20-byte script hashes.  The host rejects witness queries on
  arguments that are not valid script hashes, so `checkWitness` gates on
  length 20 before consulting the oracle.
* Hard (aborting) failures — failed `assert`, `raise` — revert every storage
  write of the transaction on Neo.  Operations therefore return
  `Except Err ...`; an `Err` result means the call aborted with no observable
  storage change.  Soft failures return `false` with the unchanged storage.
* Events (notifications) are returned as a list; the `Debug` notifications of
  the source carry no contract state and are not modelled.
* `serialize`/`deserialize` of the authorized-address list is modelled by the
  injective length-prefixed encoding `serializeAddrs` / `deserializeAddrs`.
* The transaction hash `tx.hash.to_int()` and the optional serialized mint
  payload `serialize(data).to_int()` are inputs of `mint` (`H` and `d`).
* Python identifiers are kept except where Lean's lexical rules force a
  rename (for instance the `mk_*_prefix`/`*_PREFIX` helpers become
  `mk*Key`/`*_KEY`).
-/

namespace GhostMarket

/-- Keys of the flat Neo storage namespace: byte strings. -/
abbrev Key := List Nat

/-- Values held in storage.  `int` models integer puts (NeoVM minimal
little-endian two's-complement byte encoding, a faithful round-trip for
`put`/`.to_int()`), `bytes` models byte-string puts. -/
inductive Val where
  | int (n : Int)
  | bytes (bs : List Nat)
deriving DecidableEq, Repr

/-- Storage is an association list with at most one entry per key
(maintained by construction through `sput` / `sdel`). -/
abbrev Storage := List (Key × Val)

/-- Storage read (`get`): first entry with the given key, if any. -/
def sget : Storage → Key → Option Val
  | [], _ => none
  | kv :: s, k => if kv.1 = k then some kv.2 else sget s k

/-- Storage delete (`delete`): drop the entries with the given key. -/
def sdel : Storage → Key → Storage
  | [], _ => []
  | kv :: s, k => if kv.1 = k then sdel s k else kv :: sdel s k

/-- Storage write (`put`): overwrite the entry with the given key. -/
def sput (s : Storage) (k : Key) (v : Val) : Storage :=
  (k, v) :: sdel s k

/-- Keys of a storage. -/
def skeys (s : Storage) : List Key := s.map Prod.fst

/-- Well-formedness: at most one entry per key. -/
def NodupKeys (s : Storage) : Prop := (skeys s).Nodup

/-- Little-endian byte decoding, unsigned. -/
def bytesToNatLE : List Nat → Nat
  | [] => 0
  | b :: bs => b % 256 + 256 * bytesToNatLE bs

/-- Auxiliary minimal little-endian encoding with explicit fuel (the fuel is
always at least the encoded value, which bounds the number of digits). -/
def natToBytesAux : Nat → Nat → List Nat
  | _, 0 => []
  | 0, _ + 1 => []
  | fuel + 1, m + 1 => (m + 1) % 256 :: natToBytesAux fuel ((m + 1) / 256)

/-- Minimal little-endian byte encoding of a natural number (0 encodes to the
empty byte string, as on the NeoVM). -/
def natToBytesLE (n : Nat) : List Nat := natToBytesAux n n

/-- Does a little-endian byte string have its sign bit set? -/
def msbSet (bs : List Nat) : Bool :=
  match bs.getLast? with
  | some b => 128 ≤ b
  | none => false

/-- Pad a byte string with trailing zero bytes up to the given length. -/
def padTo (len : Nat) (bs : List Nat) : List Nat :=
  bs ++ List.replicate (len - bs.length) 0

/-- Minimal little-endian two's-complement encoding of an integer, as
produced by the NeoVM when an integer value is converted to bytes. -/
def intToBytesLE (n : Int) : List Nat :=
  if 0 ≤ n then
    let bs := natToBytesLE n.toNat
    if msbSet bs then bs ++ [0] else bs
  else
    let m := (-n).toNat
    let len := (natToBytesLE (2 * m - 1)).length
    padTo len (natToBytesLE (256 ^ len - m))

/-- Little-endian two's-complement decoding (`.to_int()` on bytes). -/
def bytesToIntLE (bs : List Nat) : Int :=
  if msbSet bs then (bytesToNatLE bs : Int) - (256 ^ bs.length : Nat)
  else (bytesToNatLE bs : Int)

/-- Read a storage value as an integer (`.to_int()`; missing keys read as the
empty byte string, hence 0). -/
def valToInt : Option Val → Int
  | none => 0
  | some (Val.int n) => n
  | some (Val.bytes bs) => bytesToIntLE bs

theorem valToInt_some_int (n : Int) : valToInt (some (Val.int n)) = n := rfl

theorem valToInt_none : valToInt none = 0 := rfl

/-- Read a storage value as bytes (missing keys read as the empty string). -/
def valToBytes : Option Val → List Nat
  | none => []
  | some (Val.int n) => intToBytesLE n
  | some (Val.bytes bs) => bs

/-- Read a storage value as a boolean (`.to_bool()`). -/
def valToBool : Option Val → Bool
  | none => false
  | some (Val.int n) => !(n == 0)
  | some (Val.bytes bs) => !(bs == [])

/-- Length-prefixed encoding of a list of byte strings, modelling the host
`serialize` applied to the authorized-address list. -/
def serializeAddrs : List (List Nat) → List Nat
  | [] => []
  | a :: rest => a.length :: (a ++ serializeAddrs rest)

/-- Decoder for `serializeAddrs`, with fuel (one unit per decoded element is
enough since every element consumes at least the length byte). -/
def desAux : Nat → List Nat → Option (List (List Nat))
  | _, [] => some []
  | 0, _ :: _ => none
  | fuel + 1, n :: rest =>
      if n ≤ rest.length then
        (desAux fuel (rest.drop n)).map (fun l => rest.take n :: l)
      else none

/-- Decoder for `serializeAddrs` (the host `deserialize`). -/
def deserializeAddrs (bs : List Nat) : Option (List (List Nat)) :=
  desAux bs.length bs

/-! Token settings, key prefixes and fixed keys of the source.  The Python
byte-string constants are spelled as their ASCII codes.  Names ending in
`_PREFIX` are renamed to `_KEY`-style names for lexical reasons. -/

/-- OWNER, the 20-byte script hash of the contract owner. -/
def OWNER : List Nat :=
  [150, 87, 108, 14, 42, 42, 28, 33, 196, 172, 94, 189, 41, 51, 49, 21, 37, 65, 31, 64]

/-- DEPLOY_FEE, the mint fee configured at deploy time. -/
def DEPLOY_FEE : Int := 10000000

/-- TOKEN_SYMBOL_B, the bytes of the token symbol `GHOST`. -/
def TOKEN_SYMBOL_B : List Nat := [71, 72, 79, 83, 84]

/-- DEPLOYED storage key (`deployed`). -/
def DEPLOYED : Key := [100, 101, 112, 108, 111, 121, 101, 100]

/-- ACCOUNT_PREFIX byte (`A`), for the per-owner token index. -/
def ACCOUNT_PFX : Nat := 65

/-- TOKEN_PREFIX byte (`T`), for token-owner entries. -/
def TOKEN_PFX : Nat := 84

/-- LOCKED_PREFIX bytes (`LC`), for locked-content entries. -/
def LOCKED_PFX : List Nat := [76, 67]

/-- BALANCE_PREFIX byte (`B`), for balance entries. -/
def BALANCE_PFX : Nat := 66

/-- SUPPLY_PREFIX byte (`S`); the total supply lives at this bare key. -/
def SUPPLY_KEY : Key := [83]

/-- META_PREFIX byte (`M`), for metadata entries. -/
def META_PFX : Nat := 77

/-- LOCKED_VIEW_COUNT bytes (`LVC`), for view-counter entries. -/
def LVC_PFX : List Nat := [76, 86, 67]

/-- TOKEN_COUNT fixed key (`TC`). -/
def TOKEN_COUNT : Key := [84, 67]

/-- MINT_FEE fixed key (`MINT_FEE`). -/
def MINT_FEE : Key := [77, 73, 78, 84, 95, 70, 69, 69]

/-- AUTH_ADDRESSES fixed key (`AUTH_ADDR`). -/
def AUTH_ADDRESSES : Key := [65, 85, 84, 72, 95, 65, 68, 68, 82]

/-- mk_account_prefix: `ACCOUNT_PREFIX + address`. -/
def mkAccountKey (address : List Nat) : Key := ACCOUNT_PFX :: address

/-- mk_balance_key: `BALANCE_PREFIX + address`. -/
def mk_balance_key (address : List Nat) : Key := BALANCE_PFX :: address

/-- mk_token_key: `TOKEN_PREFIX + token`. -/
def mk_token_key (token : List Nat) : Key := TOKEN_PFX :: token

/-- mk_locked_key: `LOCKED_PREFIX + token`. -/
def mk_locked_key (token : List Nat) : Key := LOCKED_PFX ++ token

/-- mk_meta_key: `META_PREFIX + token`. -/
def mk_meta_key (token : List Nat) : Key := META_PFX :: token

/-- mk_lv_key: `LOCKED_VIEW_COUNT + token`. -/
def mk_lv_key (token : List Nat) : Key := LVC_PFX ++ token

/-- Witness oracles: for each 20-byte script hash, whether the current
transaction carries that witness. -/
abbrev Oracle := List Nat → Bool

/-- check_witness, gated on the argument being a well-formed 20-byte script
hash (the host rejects other arguments). -/
def checkWitness (w : Oracle) (h : List Nat) : Bool :=
  (h.length == 20) && w h

/-- Notifications fired by the contract.  Debug notifications are omitted. -/
inductive Event where
  | transferE (from_addr to_addr : Option (List Nat)) (amount : Int) (tokenId : List Nat)
  | authE (authorized : List Nat) (add : Bool)
  | deployE (owner : List Nat)
deriving DecidableEq, Repr

/-- Hard-failure causes (failed assertions and raised exceptions).  On Neo a
hard failure aborts the transaction and reverts all of its storage writes, so
an `Except.error` result carries no storage. -/
inductive Err where
  | assertFailed
  | feeNegative
  | feePaymentFailed
  | prohibitedAccess
  | deserializeFailed
  | removeMissing
deriving DecidableEq, Repr

/-! Contract operations, translated function-by-function from the source. -/

/-- totalSupply: read the supply counter. -/
def totalSupply (s : Storage) : Int :=
  valToInt (sget s SUPPLY_KEY)

/-- balanceOf: assert the address is 20 bytes, then read the balance entry. -/
def balanceOf (s : Storage) (owner : List Nat) : Except Err Int :=
  if owner.length = 20 then Except.ok (valToInt (sget s (mk_balance_key owner)))
  else Except.error Err.assertFailed

/-- tokensOf: assert the address is 20 bytes, then prefix-scan the per-owner
token index (`find(mk_account_prefix(owner))`); the iterator is modelled as
the list of matching entries in store order. -/
def tokensOf (s : Storage) (owner : List Nat) : Except Err (List (Key × Val)) :=
  if owner.length = 20 then
    Except.ok (s.filter (fun kv => (mkAccountKey owner).isPrefixOf kv.1))
  else Except.error Err.assertFailed

/-- get_owner_of: read the token-owner entry as bytes (a missing entry reads
as the empty byte string). -/
def get_owner_of (s : Storage) (token : List Nat) : List Nat :=
  valToBytes (sget s (mk_token_key token))

/-- set_owner_of: write the token-owner entry. -/
def set_owner_of (s : Storage) (token owner : List Nat) : Storage :=
  sput s (mk_token_key token) (Val.bytes owner)

/-- remove_owner_of: delete the token-owner entry. -/
def remove_owner_of (s : Storage) (token : List Nat) : Storage :=
  sdel s (mk_token_key token)

/-- add_token: write the per-owner index entry. -/
def add_token (s : Storage) (owner token : List Nat) : Storage :=
  sput s (mkAccountKey owner ++ token) (Val.bytes token)

/-- remove_token: delete the per-owner index entry. -/
def remove_token (s : Storage) (owner token : List Nat) : Storage :=
  sdel s (mkAccountKey owner ++ token)

/-- get_meta: read the metadata entry. -/
def get_meta (s : Storage) (token : List Nat) : List Nat :=
  valToBytes (sget s (mk_meta_key token))

/-- add_meta: write the metadata entry. -/
def add_meta (s : Storage) (token meta : List Nat) : Storage :=
  sput s (mk_meta_key token) (Val.bytes meta)

/-- remove_meta: delete the metadata entry. -/
def remove_meta (s : Storage) (token : List Nat) : Storage :=
  sdel s (mk_meta_key token)

/-- add_locked_content: write the locked-content entry. -/
def add_locked_content (s : Storage) (token content : List Nat) : Storage :=
  sput s (mk_locked_key token) (Val.bytes content)

/-- get_locked_content: read the locked-content entry. -/
def get_locked_content (s : Storage) (token : List Nat) : List Nat :=
  valToBytes (sget s (mk_locked_key token))

/-- remove_locked_content: delete the locked-content entry.  Present in the
source but never called (in particular not from internal_burn). -/
def remove_locked_content (s : Storage) (token : List Nat) : Storage :=
  sdel s (mk_locked_key token)

/-- get_mint_fee: read the configured fee (the `if fee is None` branch of the
source is dead since `.to_int()` never yields None). -/
def get_mint_fee (s : Storage) : Int :=
  valToInt (sget s MINT_FEE)

/-- set_mint_fee: write the fee, then read it back. -/
def set_mint_fee (s : Storage) (amount : Int) : Storage × Int :=
  let s1 := sput s MINT_FEE (Val.int amount)
  (s1, get_mint_fee s1)

/-- get_locked_view_counter: read the view counter of a token. -/
def get_locked_view_counter (s : Storage) (token : List Nat) : Int :=
  valToInt (sget s (mk_lv_key token))

/-- incr_locked_view_counter: read, add one, write back. -/
def incr_locked_view_counter (s : Storage) (token : List Nat) : Storage :=
  sput s (mk_lv_key token) (Val.int (valToInt (sget s (mk_lv_key token)) + 1))

/-- add_to_supply: `totalSupply() + amount`, written back unconditionally. -/
def add_to_supply (s : Storage) (amount : Int) : Storage :=
  sput s SUPPLY_KEY (Val.int (totalSupply s + amount))

/-- add_to_balance (total-function core): the new balance is stored if
positive, otherwise the balance entry is deleted. -/
def add_to_balance_fn (s : Storage) (owner : List Nat) (amount : Int) : Storage :=
  let nw := valToInt (sget s (mk_balance_key owner)) + amount
  if 0 < nw then sput s (mk_balance_key owner) (Val.int nw)
  else sdel s (mk_balance_key owner)

/-- add_to_balance: reads the old balance through `balanceOf`, whose length
assertion makes the call abort on a non-20-byte owner. -/
def add_to_balance (s : Storage) (owner : List Nat) (amount : Int) : Except Err Storage :=
  if owner.length = 20 then Except.ok (add_to_balance_fn s owner amount)
  else Except.error Err.assertFailed

/-- ownerOf: the public NEP-11 owner query.  The body of the source function
consists solely of its docstring — there is no return statement — so the
operation produces no value (null), for every storage and every token. -/
def ownerOf (_s : Storage) (_tokenId : List Nat) : Option (List Nat) :=
  none

/-- transfer: assert `len(to) == 20`; soft-fail unless the current owner is
witnessed; skip all storage mutation when `to` equals the owner; otherwise
move balances, the index entry and the owner entry; finally fire the
`Transfer` notification (post_transfer). -/
def transfer (w : Oracle) (s : Storage) (to_address tokenId : List Nat) :
    Except Err (Storage × Bool × List Event) :=
  if to_address.length = 20 then
    let token_owner := get_owner_of s tokenId
    if checkWitness w token_owner then
      if token_owner ≠ to_address then
        match add_to_balance s token_owner (-1) with
        | Except.error e => Except.error e
        | Except.ok s1 =>
          let s2 := remove_token s1 token_owner tokenId
          match add_to_balance s2 to_address 1 with
          | Except.error e => Except.error e
          | Except.ok s3 =>
            let s4 := add_token s3 to_address tokenId
            let s5 := set_owner_of s4 tokenId to_address
            Except.ok (s5, true, [Event.transferE (some token_owner) (some to_address) 1 tokenId])
      else
        Except.ok (s, true, [Event.transferE (some token_owner) (some to_address) 1 tokenId])
    else
      Except.ok (s, false, [])
  else Except.error Err.assertFailed

/-- internal_burn (and the public burn wrapper): soft-fail unless the current
owner is witnessed; otherwise remove the index entry, the metadata entry and
the owner entry, decrement the balance and the supply, and fire a
transfer-to-null notification.  The locked-content entry is never touched and
the view-counter deletion is an explicit TODO in the source. -/
def burn (w : Oracle) (s : Storage) (token : List Nat) :
    Except Err (Storage × Bool × List Event) :=
  let owner := get_owner_of s token
  if checkWitness w owner then
    let s1 := remove_token s owner token
    let s2 := remove_meta s1 token
    let s3 := remove_owner_of s2 token
    match add_to_balance s3 owner (-1) with
    | Except.error e => Except.error e
    | Except.ok s4 =>
      let s5 := add_to_supply s4 (-1)
      Except.ok (s5, true, [Event.transferE (some owner) none 1 token])
  else
    Except.ok (s, false, [])

/-- internal_mint: allocate `token_id = TOKEN_COUNT + 1`, derive the token id
bytes `TOKEN_SYMBOL_B + append(tx.hash.to_int() + token_id [+
serialize(data).to_int()])` (the bytearray append of an integer contributes
the integer's minimal byte encoding), write the index, locked-content,
metadata and owner entries, and bump balance and supply.  `H` is the
transaction hash as an integer and `d` the serialized optional payload. -/
def internal_mint (H : Int) (d : Option Int) (s : Storage)
    (account meta lockedContent : List Nat) :
    Except Err (Storage × List Nat × List Event) :=
  let token_id := valToInt (sget s TOKEN_COUNT) + 1
  let s1 := sput s TOKEN_COUNT (Val.int token_id)
  let nftData : Int :=
    match d with
    | none => H + token_id
    | some dv => H + token_id + dv
  let token := TOKEN_SYMBOL_B ++ intToBytesLE nftData
  let s2 := add_token s1 account token
  let s3 := add_locked_content s2 token lockedContent
  let s4 := add_meta s3 token meta
  let s5 := set_owner_of s4 token account
  match add_to_balance s5 account 1 with
  | Except.error e => Except.error e
  | Except.ok s6 =>
    let s7 := add_to_supply s6 1
    Except.ok (s7, token, [Event.transferE none (some account) 1 token])

/-- mint: raise if the configured fee is negative; raise if the external
GAS fee transfer fails (`feeOk` is the external collaborator's verdict);
otherwise run internal_mint. -/
def mint (feeOk : Bool) (H : Int) (d : Option Int) (s : Storage)
    (account meta lockedContent : List Nat) :
    Except Err (Storage × List Nat × List Event) :=
  let fee := get_mint_fee s
  if fee < 0 then Except.error Err.feeNegative
  else if !feeOk then Except.error Err.feePaymentFailed
  else internal_mint H d s account meta lockedContent

/-- getLockedContent: raise unless the current owner is witnessed; otherwise
increment the view counter and return the stored payload. -/
def getLockedContent (w : Oracle) (s : Storage) (token : List Nat) :
    Except Err (Storage × List Nat) :=
  let owner := get_owner_of s token
  if checkWitness w owner then
    let s1 := incr_locked_view_counter s token
    Except.ok (s1, get_locked_content s1 token)
  else Except.error Err.prohibitedAccess

/-- verify: the owner witness check (the commented-out allow-list branch of
the source is dead code). -/
def verify (w : Oracle) : Bool :=
  checkWitness w OWNER

/-- set_authorized_address: soft-fail unless `verify()`; deserialize the
stored list; on add, append only when the address was not found, then store;
on removal, `list.remove` of a missing element is a hard failure. -/
def set_authorized_address (w : Oracle) (s : Storage) (address : List Nat)
    (authorized : Bool) : Except Err (Storage × Bool × List Event) :=
  if !(verify w) then Except.ok (s, false, [])
  else
    match deserializeAddrs (valToBytes (sget s AUTH_ADDRESSES)) with
    | none => Except.error Err.deserializeFailed
    | some auth =>
        if authorized then
          let auth2 := if address ∈ auth then auth else auth ++ [address]
          Except.ok (sput s AUTH_ADDRESSES (Val.bytes (serializeAddrs auth2)), true,
            [Event.authE address true])
        else
          if address ∈ auth then
            Except.ok (sput s AUTH_ADDRESSES (Val.bytes (serializeAddrs (auth.erase address))),
              true, [Event.authE address false])
          else Except.error Err.removeMissing

/-- deploy: owner-witnessed one-time initialization of the deployed flag, the
token counter, the mint fee and the authorized-address list. -/
def deploy (w : Oracle) (s : Storage) : Storage × Bool × List Event :=
  if !(checkWitness w OWNER) then (s, false, [])
  else if valToBool (sget s DEPLOYED) then (s, false, [])
  else
    let s1 := sput s DEPLOYED (Val.int 1)
    let s2 := sput s1 TOKEN_COUNT (Val.int 0)
    let s3 := sput s2 MINT_FEE (Val.int DEPLOY_FEE)
    let s4 := sput s3 AUTH_ADDRESSES (Val.bytes (serializeAddrs [OWNER]))
    (s4, true, [Event.deployE OWNER])

/-- Storage of a freshly deployed contract (`deploy` from empty storage). -/
def initState : Storage :=
  [(AUTH_ADDRESSES, Val.bytes (serializeAddrs [OWNER])),
   (MINT_FEE, Val.int DEPLOY_FEE),
   (TOKEN_COUNT, Val.int 0),
   (DEPLOYED, Val.int 1)]

/-- Sanity: `deploy` on empty storage with the owner witness produces
`initState`. -/
theorem deploy_empty_eq_initState :
    deploy (fun h => h == OWNER) [] = (initState, true, [Event.deployE OWNER]) := by
  decide

/-! Basic lemmas about the storage primitives. -/

theorem sget_nil (k : Key) : sget [] k = none := rfl

theorem sget_cons (kv : Key × Val) (s : Storage) (k : Key) :
    sget (kv :: s) k = if kv.1 = k then some kv.2 else sget s k := rfl

theorem sdel_cons (kv : Key × Val) (s : Storage) (k : Key) :
    sdel (kv :: s) k = if kv.1 = k then sdel s k else kv :: sdel s k := rfl

theorem sget_sdel_same (s : Storage) (k : Key) : sget (sdel s k) k = none := by
  induction s with
  | nil => rfl
  | cons kv t ih =>
      by_cases h : kv.1 = k
      · simpa [sdel_cons, h] using ih
      · simpa [sdel_cons, sget_cons, h] using ih

theorem sget_sdel_ne (s : Storage) (k k2 : Key) (h : k2 ≠ k) :
    sget (sdel s k) k2 = sget s k2 := by
  induction s with
  | nil => rfl
  | cons kv t ih =>
      by_cases hk : kv.1 = k
      · have hne : kv.1 ≠ k2 := by rw [hk]; exact fun he => h he.symm
        rw [sdel_cons, if_pos hk, ih, sget_cons, if_neg hne]
      · rw [sdel_cons, if_neg hk, sget_cons, sget_cons]
        by_cases hk2 : kv.1 = k2
        · rw [if_pos hk2, if_pos hk2]
        · rw [if_neg hk2, if_neg hk2, ih]

theorem sget_sput_same (s : Storage) (k : Key) (v : Val) :
    sget (sput s k v) k = some v := by
  simp [sput, sget_cons]

theorem sget_sput_ne (s : Storage) (k k2 : Key) (v : Val) (h : k2 ≠ k) :
    sget (sput s k v) k2 = sget s k2 := by
  have hne : k ≠ k2 := fun he => h he.symm
  simp [sput, sget_cons, hne, sget_sdel_ne s k k2 h]

theorem not_mem_skeys_sdel (s : Storage) (k : Key) : k ∉ skeys (sdel s k) := by
  induction s with
  | nil => simp [sdel, skeys]
  | cons kv t ih =>
      by_cases h : kv.1 = k
      · simpa [sdel_cons, h] using ih
      · simp [sdel_cons, h, skeys] at ih ⊢
        exact ⟨fun he => h he.symm, ih⟩

theorem sdel_sublist (s : Storage) (k : Key) : (sdel s k).Sublist s := by
  induction s with
  | nil => simp [sdel]
  | cons kv t ih =>
      by_cases h : kv.1 = k
      · simp only [sdel_cons, h, if_pos]
        exact ih.cons kv
      · simp only [sdel_cons, h, if_neg, not_false_iff]
        exact ih.cons₂ kv

theorem nodupKeys_sdel (s : Storage) (k : Key) (h : NodupKeys s) :
    NodupKeys (sdel s k) :=
  List.Nodup.sublist (List.Sublist.map Prod.fst (sdel_sublist s k)) h

theorem nodupKeys_sput (s : Storage) (k : Key) (v : Val) (h : NodupKeys s) :
    NodupKeys (sput s k v) := by
  have he : skeys (sput s k v) = k :: skeys (sdel s k) := rfl
  rw [NodupKeys, he]
  exact List.nodup_cons.mpr ⟨not_mem_skeys_sdel s k, nodupKeys_sdel s k h⟩

theorem sdel_of_not_mem (s : Storage) (k : Key) (h : k ∉ skeys s) : sdel s k = s := by
  induction s with
  | nil => rfl
  | cons kv t ih =>
      simp only [skeys, List.map_cons, List.mem_cons, not_or] at h
      have h1 : kv.1 ≠ k := fun he => h.1 he.symm
      rw [sdel_cons, if_neg h1, ih (by simpa [skeys] using h.2)]

/-! Counting entries that satisfy a predicate, and how `sput` / `sdel`
change such counts. -/

/-- Number of entries satisfying a predicate. -/
def countP (P : Key × Val → Bool) : Storage → Nat
  | [] => 0
  | kv :: s => (if P kv then 1 else 0) + countP P s

theorem countP_sput (P : Key × Val → Bool) (s : Storage) (k : Key) (v : Val) :
    countP P (sput s k v) = (if P (k, v) then 1 else 0) + countP P (sdel s k) := rfl

/-- Contribution of a possible entry at key `k` to a `countP`. -/
def optCount (P : Key × Val → Bool) (k : Key) : Option Val → Nat
  | some v => if P (k, v) then 1 else 0
  | none => 0

theorem countP_sdel_add (P : Key × Val → Bool) (s : Storage) (k : Key)
    (h : NodupKeys s) :
    countP P s = countP P (sdel s k) + optCount P k (sget s k) := by
  induction s with
  | nil => rfl
  | cons kv t ih =>
      have hnd : NodupKeys t := (List.nodup_cons.mp h).2
      have hout : kv.1 ∉ skeys t := (List.nodup_cons.mp h).1
      obtain ⟨k0, v0⟩ := kv
      by_cases hk : k0 = k
      · subst hk
        have hdel : sdel t k0 = t := sdel_of_not_mem t k0 (by simpa using hout)
        simp [sdel_cons, sget_cons, hdel, countP, optCount, Nat.add_comm]
      · have hrec := ih hnd
        have h1 : (k0, v0).1 ≠ k := hk
        rw [sdel_cons, if_neg h1, sget_cons, if_neg h1]
        simp only [countP]
        omega

theorem countP_sput_frame (P : Key × Val → Bool) (s : Storage) (k : Key) (v : Val)
    (h : NodupKeys s) (hP : ∀ v0, P (k, v0) = false) :
    countP P (sput s k v) = countP P s := by
  rw [countP_sput, countP_sdel_add P s k h]
  cases hv : sget s k <;> simp [hP, optCount]

theorem countP_sdel_frame (P : Key × Val → Bool) (s : Storage) (k : Key)
    (h : NodupKeys s) (hP : ∀ v0, P (k, v0) = false) :
    countP P (sdel s k) = countP P s := by
  rw [countP_sdel_add P s k h]
  cases hv : sget s k <;> simp [hP, optCount]

theorem sdel_of_sget_none (s : Storage) (k : Key) (h : sget s k = none) :
    sdel s k = s := by
  induction s with
  | nil => rfl
  | cons kv t ih =>
      rw [sget_cons] at h
      by_cases hk : kv.1 = k
      · rw [if_pos hk] at h; exact absurd h (by simp)
      · rw [if_neg hk] at h
        rw [sdel_cons, if_neg hk, ih h]

theorem countP_sput_fresh (P : Key × Val → Bool) (s : Storage) (k : Key) (v : Val)
    (h : sget s k = none) :
    countP P (sput s k v) = (if P (k, v) then 1 else 0) + countP P s := by
  rw [countP_sput, sdel_of_sget_none s k h]

/-! Live-token and per-owner counting.  A TokenOwner entry is an entry under
the `T` prefix holding a byte-string value (an owner address); the only other
key under that prefix, the fixed `TC` counter key, always holds an integer. -/

/-- Entry of the TokenOwner family: key under the `T` (84) prefix, value a
byte string (an owner address). -/
def isLiveEntry : Key × Val → Bool
  | (84 :: _, Val.bytes _) => true
  | _ => false

/-- TokenOwner entry whose stored owner is the given address. -/
def isOwnedEntry (a : List Nat) : Key × Val → Bool
  | (84 :: _, Val.bytes o) => o == a
  | _ => false

/-- Number of live tokens: TokenOwner entries in storage. -/
def liveCount (s : Storage) : Nat := countP isLiveEntry s

/-- Number of live tokens whose stored owner is the given address. -/
def ownedCount (s : Storage) (a : List Nat) : Nat := countP (isOwnedEntry a) s

/-! Reachability by the three accounting operations, from a fresh deploy. -/

/-- States reachable from a freshly deployed contract by successful mint,
burn and transfer calls.  Hard failures revert and soft failures return the
unchanged storage, so only `Except.ok` outcomes generate states. -/
inductive Reachable : Storage → Prop where
  | base : Reachable initState
  | step_mint (s s2 : Storage) (feeOk : Bool) (H : Int) (d : Option Int)
      (account meta locked tok : List Nat) (ev : List Event) :
      Reachable s →
      mint feeOk H d s account meta locked = Except.ok (s2, tok, ev) →
      Reachable s2
  | step_burn (s s2 : Storage) (w : Oracle) (token : List Nat) (b : Bool)
      (ev : List Event) :
      Reachable s →
      burn w s token = Except.ok (s2, b, ev) →
      Reachable s2
  | step_transfer (s s2 : Storage) (w : Oracle) (to_address token : List Nat)
      (b : Bool) (ev : List Event) :
      Reachable s →
      transfer w s to_address token = Except.ok (s2, b, ev) →
      Reachable s2

/-- Reachability restricted to benign traces: every successful mint derives a
token identifier whose TokenOwner key was previously unused (no identifier
collision), and burn/transfer are never invoked on the token identifier `C`
(the byte string `[67]`), whose TokenOwner key aliases the fixed token-counter
key `TC`. -/
inductive ReachableFresh : Storage → Prop where
  | base : ReachableFresh initState
  | step_mint (s s2 : Storage) (feeOk : Bool) (H : Int) (d : Option Int)
      (account meta locked tok : List Nat) (ev : List Event) :
      ReachableFresh s →
      mint feeOk H d s account meta locked = Except.ok (s2, tok, ev) →
      sget s (mk_token_key tok) = none →
      ReachableFresh s2
  | step_burn (s s2 : Storage) (w : Oracle) (token : List Nat) (b : Bool)
      (ev : List Event) :
      ReachableFresh s →
      burn w s token = Except.ok (s2, b, ev) →
      token ≠ [67] →
      ReachableFresh s2
  | step_transfer (s s2 : Storage) (w : Oracle) (to_address token : List Nat)
      (b : Bool) (ev : List Event) :
      ReachableFresh s →
      transfer w s to_address token = Except.ok (s2, b, ev) →
      token ≠ [67] →
      ReachableFresh s2

/-! Effect lemmas: each operation's successful outcome, written as an
explicit composition of storage primitives. -/

theorem checkWitness_length (w : Oracle) (h : List Nat)
    (hw : checkWitness w h = true) : h.length = 20 := by
  have hand := (Bool.and_eq_true _ _).mp hw
  simpa using hand.1

theorem transfer_soft (w : Oracle) (s : Storage) (to_address tokenId : List Nat)
    (hlen : to_address.length = 20)
    (hw : checkWitness w (get_owner_of s tokenId) = false) :
    transfer w s to_address tokenId = Except.ok (s, false, []) := by
  simp [transfer, hlen, hw]

theorem transfer_self (w : Oracle) (s : Storage) (tokenId : List Nat)
    (hw : checkWitness w (get_owner_of s tokenId) = true) :
    transfer w s (get_owner_of s tokenId) tokenId =
      Except.ok (s, true,
        [Event.transferE (some (get_owner_of s tokenId))
          (some (get_owner_of s tokenId)) 1 tokenId]) := by
  have hlen := checkWitness_length w _ hw
  simp [transfer, hlen, hw]

theorem transfer_move (w : Oracle) (s : Storage) (to_address tokenId : List Nat)
    (hlen : to_address.length = 20)
    (hw : checkWitness w (get_owner_of s tokenId) = true)
    (hne : get_owner_of s tokenId ≠ to_address) :
    transfer w s to_address tokenId =
      Except.ok
        (set_owner_of
          (add_token
            (add_to_balance_fn
              (remove_token (add_to_balance_fn s (get_owner_of s tokenId) (-1))
                (get_owner_of s tokenId) tokenId)
              to_address 1)
            to_address tokenId)
          tokenId to_address,
         true,
         [Event.transferE (some (get_owner_of s tokenId)) (some to_address) 1 tokenId]) := by
  have hol := checkWitness_length w _ hw
  simp [transfer, hlen, hw, hne, add_to_balance, hol]

theorem burn_soft (w : Oracle) (s : Storage) (token : List Nat)
    (hw : checkWitness w (get_owner_of s token) = false) :
    burn w s token = Except.ok (s, false, []) := by
  simp [burn, hw]

theorem burn_ok (w : Oracle) (s : Storage) (token : List Nat)
    (hw : checkWitness w (get_owner_of s token) = true) :
    burn w s token =
      Except.ok
        (add_to_supply
          (add_to_balance_fn
            (remove_owner_of
              (remove_meta (remove_token s (get_owner_of s token) token) token)
              token)
            (get_owner_of s token) (-1))
          (-1),
         true,
         [Event.transferE (some (get_owner_of s token)) none 1 token]) := by
  have hol := checkWitness_length w _ hw
  simp [burn, hw, add_to_balance, hol]

/-- Integer from which internal_mint derives the token id: transaction hash
plus incremented counter, plus the serialized payload when present. -/
def nftDataOf (H : Int) (d : Option Int) (s : Storage) : Int :=
  match d with
  | none => H + (valToInt (sget s TOKEN_COUNT) + 1)
  | some dv => H + (valToInt (sget s TOKEN_COUNT) + 1) + dv

/-- Token identifier derived by internal_mint from the pre-state. -/
def mintedToken (H : Int) (d : Option Int) (s : Storage) : List Nat :=
  TOKEN_SYMBOL_B ++ intToBytesLE (nftDataOf H d s)

/-- Post-state of a successful internal_mint, as a primitive composition. -/
def mintedStorage (H : Int) (d : Option Int) (s : Storage)
    (account meta lockedContent : List Nat) : Storage :=
  add_to_supply
    (add_to_balance_fn
      (set_owner_of
        (add_meta
          (add_locked_content
            (add_token
              (sput s TOKEN_COUNT (Val.int (valToInt (sget s TOKEN_COUNT) + 1)))
              account (mintedToken H d s))
            (mintedToken H d s) lockedContent)
          (mintedToken H d s) meta)
        (mintedToken H d s) account)
      account 1)
    1

theorem mint_fee_negative (feeOk : Bool) (H : Int) (d : Option Int) (s : Storage)
    (account meta lockedContent : List Nat) (hfee : get_mint_fee s < 0) :
    mint feeOk H d s account meta lockedContent = Except.error Err.feeNegative := by
  simp [mint, hfee]

theorem mint_fee_payment_failed (H : Int) (d : Option Int) (s : Storage)
    (account meta lockedContent : List Nat) (hfee : ¬ get_mint_fee s < 0) :
    mint false H d s account meta lockedContent = Except.error Err.feePaymentFailed := by
  simp [mint, hfee]

theorem mint_ok (H : Int) (d : Option Int) (s : Storage)
    (account meta lockedContent : List Nat)
    (hfee : ¬ get_mint_fee s < 0) (hlen : account.length = 20) :
    mint true H d s account meta lockedContent =
      Except.ok (mintedStorage H d s account meta lockedContent, mintedToken H d s,
        [Event.transferE none (some account) 1 (mintedToken H d s)]) := by
  simp [mint, internal_mint, hfee, add_to_balance, hlen, mintedStorage, mintedToken,
    nftDataOf]

/-! Helper lemmas for add_to_balance_fn and for counting through updates. -/

theorem nodup_add_to_balance_fn (s : Storage) (o : List Nat) (amt : Int)
    (h : NodupKeys s) : NodupKeys (add_to_balance_fn s o amt) := by
  unfold add_to_balance_fn
  by_cases hpos : (0 : Int) < valToInt (sget s (mk_balance_key o)) + amt
  · rw [if_pos hpos]; exact nodupKeys_sput _ _ _ h
  · rw [if_neg hpos]; exact nodupKeys_sdel _ _ h

theorem sget_add_to_balance_fn_ne (s : Storage) (o : List Nat) (amt : Int)
    (k : Key) (hk : k ≠ mk_balance_key o) :
    sget (add_to_balance_fn s o amt) k = sget s k := by
  unfold add_to_balance_fn
  by_cases hpos : (0 : Int) < valToInt (sget s (mk_balance_key o)) + amt
  · rw [if_pos hpos, sget_sput_ne _ _ _ _ hk]
  · rw [if_neg hpos, sget_sdel_ne _ _ _ hk]

theorem countP_add_to_balance_fn_frame (P : Key × Val → Bool) (s : Storage)
    (o : List Nat) (amt : Int) (h : NodupKeys s)
    (hP : ∀ v0, P (mk_balance_key o, v0) = false) :
    countP P (add_to_balance_fn s o amt) = countP P s := by
  unfold add_to_balance_fn
  by_cases hpos : (0 : Int) < valToInt (sget s (mk_balance_key o)) + amt
  · rw [if_pos hpos, countP_sput_frame P s _ _ h hP]
  · rw [if_neg hpos, countP_sdel_frame P s _ h hP]

theorem countP_sdel_known (P : Key × Val → Bool) (s : Storage) (k : Key) (v0 : Val)
    (h : NodupKeys s) (hv : sget s k = some v0) :
    countP P (sdel s k) + (if P (k, v0) then 1 else 0) = countP P s := by
  have h0 := countP_sdel_add P s k h
  rw [hv] at h0
  simp only [optCount] at h0
  omega

theorem countP_sput_replace (P : Key × Val → Bool) (s : Storage) (k : Key)
    (v0 v1 : Val) (h : NodupKeys s) (hv : sget s k = some v0) :
    countP P (sput s k v1) + (if P (k, v0) then 1 else 0) =
      countP P s + (if P (k, v1) then 1 else 0) := by
  have h1 := countP_sdel_known P s k v0 h hv
  rw [countP_sput]
  omega

theorem countP_pos_of_sget (P : Key × Val → Bool) (s : Storage) (k : Key) (v0 : Val)
    (h : NodupKeys s) (hv : sget s k = some v0) (hP : P (k, v0) = true) :
    1 ≤ countP P s := by
  have h1 := countP_sdel_known P s k v0 h hv
  rw [hP] at h1
  simp only [if_true] at h1
  omega

theorem countP_sput_int_frame (P : Key × Val → Bool) (s : Storage) (k : Key)
    (n : Int) (h : NodupKeys s)
    (hP : ∀ m : Int, P (k, Val.int m) = false)
    (hk : sget s k = none ∨ ∃ c : Int, sget s k = some (Val.int c)) :
    countP P (sput s k (Val.int n)) = countP P s := by
  rcases hk with hk | ⟨c, hk⟩
  · rw [countP_sput_fresh P s k _ hk, hP n]
    simp
  · have h0 := countP_sput_replace P s k (Val.int c) (Val.int n) h hk
    rw [hP n, hP c] at h0
    simp only [Bool.false_eq_true, if_false] at h0
    omega

/-! Accounting invariant of §8 of the specification, strengthened with the
well-formedness facts needed for its preservation proof. -/

/-- Reading a balance entry as an integer (the storage-level content of the
public balanceOf, without its length assertion). -/
def balRead (s : Storage) (a : List Nat) : Int :=
  valToInt (sget s (mk_balance_key a))

/-- Accounting invariant: balances count owned TokenOwner entries, the
supply counts all TokenOwner entries, TokenOwner entries (for identifiers
other than the counter-aliasing `[67]`) hold 20-byte owner addresses, and
the token counter holds an integer. -/
def Inv (s : Storage) : Prop :=
  NodupKeys s ∧
  (∀ a : List Nat, a.length = 20 → balRead s a = (ownedCount s a : Int)) ∧
  totalSupply s = (liveCount s : Int) ∧
  (∀ t : List Nat, ∀ v : Val, t ≠ [67] → sget s (mk_token_key t) = some v →
    ∃ o : List Nat, v = Val.bytes o ∧ o.length = 20) ∧
  (sget s TOKEN_COUNT = none ∨ ∃ c : Int, sget s TOKEN_COUNT = some (Val.int c))

theorem inv_initState : Inv initState := by
  refine ⟨by show (skeys initState).Nodup; decide, ?_, by decide, ?_, ?_⟩
  · intro a _
    have hget : sget initState (mk_balance_key a) = none := by
      simp [initState, sget, AUTH_ADDRESSES, MINT_FEE, TOKEN_COUNT, DEPLOYED,
        mk_balance_key, BALANCE_PFX]
    have hcnt : ownedCount initState a = 0 := rfl
    rw [balRead, hget, hcnt]
    rfl
  · intro t v ht hv
    have h67 : ¬ ([67] : List Nat) = t := fun he => ht he.symm
    simp [initState, sget, AUTH_ADDRESSES, MINT_FEE, TOKEN_COUNT, DEPLOYED,
      mk_token_key, TOKEN_PFX, h67] at hv
  · right
    exact ⟨0, by decide⟩

theorem ne_of_head (a b : Nat) (x y : List Nat) (h : a ≠ b) :
    (a :: x : List Nat) ≠ b :: y := by simp [h]

theorem ne_of_head2 (a b c : Nat) (x y : List Nat) (h : b ≠ c) :
    (a :: b :: x : List Nat) ≠ a :: c :: y := by simp [h]

/-! Key disequalities between the entry families of the key space. -/

theorem key_bal_supply (a : List Nat) : mk_balance_key a ≠ SUPPLY_KEY :=
  ne_of_head 66 83 a [] (by decide)

theorem key_bal_tc (a : List Nat) : mk_balance_key a ≠ TOKEN_COUNT :=
  ne_of_head 66 84 a [67] (by decide)

theorem key_bal_token (a t : List Nat) : mk_balance_key a ≠ mk_token_key t :=
  ne_of_head 66 84 a t (by decide)

theorem key_bal_meta (a t : List Nat) : mk_balance_key a ≠ mk_meta_key t :=
  ne_of_head 66 77 a t (by decide)

theorem key_bal_locked (a t : List Nat) : mk_balance_key a ≠ mk_locked_key t :=
  ne_of_head 66 76 a (67 :: t) (by decide)

theorem key_bal_lv (a t : List Nat) : mk_balance_key a ≠ mk_lv_key t :=
  ne_of_head 66 76 a (86 :: 67 :: t) (by decide)

theorem key_bal_account (a o t : List Nat) : mk_balance_key a ≠ mkAccountKey o ++ t :=
  ne_of_head 66 65 a (o ++ t) (by decide)

theorem key_token_supply (t : List Nat) : mk_token_key t ≠ SUPPLY_KEY :=
  ne_of_head 84 83 t [] (by decide)

theorem key_token_bal (t a : List Nat) : mk_token_key t ≠ mk_balance_key a :=
  ne_of_head 84 66 t a (by decide)

theorem key_token_meta (t u : List Nat) : mk_token_key t ≠ mk_meta_key u :=
  ne_of_head 84 77 t u (by decide)

theorem key_token_locked (t u : List Nat) : mk_token_key t ≠ mk_locked_key u :=
  ne_of_head 84 76 t (67 :: u) (by decide)

theorem key_token_lv (t u : List Nat) : mk_token_key t ≠ mk_lv_key u :=
  ne_of_head 84 76 t (86 :: 67 :: u) (by decide)

theorem key_token_account (t o u : List Nat) : mk_token_key t ≠ mkAccountKey o ++ u :=
  ne_of_head 84 65 t (o ++ u) (by decide)

theorem key_supply_bal (a : List Nat) : SUPPLY_KEY ≠ mk_balance_key a :=
  ne_of_head 83 66 [] a (by decide)

theorem key_supply_tc : SUPPLY_KEY ≠ TOKEN_COUNT := by decide

theorem key_supply_token (t : List Nat) : SUPPLY_KEY ≠ mk_token_key t :=
  ne_of_head 83 84 [] t (by decide)

theorem key_supply_meta (t : List Nat) : SUPPLY_KEY ≠ mk_meta_key t :=
  ne_of_head 83 77 [] t (by decide)

theorem key_supply_locked (t : List Nat) : SUPPLY_KEY ≠ mk_locked_key t :=
  ne_of_head 83 76 [] (67 :: t) (by decide)

theorem key_supply_account (o t : List Nat) : SUPPLY_KEY ≠ mkAccountKey o ++ t :=
  ne_of_head 83 65 [] (o ++ t) (by decide)

theorem key_tc_supply : TOKEN_COUNT ≠ SUPPLY_KEY := by decide

theorem key_tc_bal (a : List Nat) : TOKEN_COUNT ≠ mk_balance_key a :=
  ne_of_head 84 66 [67] a (by decide)

theorem key_tc_meta (t : List Nat) : TOKEN_COUNT ≠ mk_meta_key t :=
  ne_of_head 84 77 [67] t (by decide)

theorem key_tc_locked (t : List Nat) : TOKEN_COUNT ≠ mk_locked_key t :=
  ne_of_head 84 76 [67] (67 :: t) (by decide)

theorem key_tc_account (o t : List Nat) : TOKEN_COUNT ≠ mkAccountKey o ++ t :=
  ne_of_head 84 65 [67] (o ++ t) (by decide)

theorem key_locked_lv (t u : List Nat) : mk_locked_key t ≠ mk_lv_key u :=
  ne_of_head2 76 67 86 t (67 :: u) (by decide)

theorem key_lv_locked (t u : List Nat) : mk_lv_key t ≠ mk_locked_key u :=
  ne_of_head2 76 86 67 (67 :: t) u (by decide)

theorem key_account_supply (o t : List Nat) : mkAccountKey o ++ t ≠ SUPPLY_KEY :=
  ne_of_head 65 83 (o ++ t) [] (by decide)

theorem key_account_bal (o t a : List Nat) : mkAccountKey o ++ t ≠ mk_balance_key a :=
  ne_of_head 65 66 (o ++ t) a (by decide)

theorem key_account_token (o t u : List Nat) : mkAccountKey o ++ t ≠ mk_token_key u :=
  ne_of_head 65 84 (o ++ t) u (by decide)

theorem key_account_meta (o t u : List Nat) : mkAccountKey o ++ t ≠ mk_meta_key u :=
  ne_of_head 65 77 (o ++ t) u (by decide)

theorem key_meta_supply (t : List Nat) : mk_meta_key t ≠ SUPPLY_KEY :=
  ne_of_head 77 83 t [] (by decide)

theorem key_meta_bal (t a : List Nat) : mk_meta_key t ≠ mk_balance_key a :=
  ne_of_head 77 66 t a (by decide)

theorem key_meta_token (t u : List Nat) : mk_meta_key t ≠ mk_token_key u :=
  ne_of_head 77 84 t u (by decide)

theorem key_locked_supply (t : List Nat) : mk_locked_key t ≠ SUPPLY_KEY :=
  ne_of_head 76 83 (67 :: t) [] (by decide)

theorem key_locked_bal (t a : List Nat) : mk_locked_key t ≠ mk_balance_key a :=
  ne_of_head 76 66 (67 :: t) a (by decide)

theorem key_locked_token (t u : List Nat) : mk_locked_key t ≠ mk_token_key u :=
  ne_of_head 76 84 (67 :: t) u (by decide)

theorem key_locked_meta (t u : List Nat) : mk_locked_key t ≠ mk_meta_key u :=
  ne_of_head 76 77 (67 :: t) u (by decide)

theorem key_locked_account (t o u : List Nat) : mk_locked_key t ≠ mkAccountKey o ++ u :=
  ne_of_head 76 65 (67 :: t) (o ++ u) (by decide)

theorem key_locked_tc (t : List Nat) : mk_locked_key t ≠ TOKEN_COUNT :=
  ne_of_head 76 84 (67 :: t) [67] (by decide)

theorem key_lv_supply (t : List Nat) : mk_lv_key t ≠ SUPPLY_KEY :=
  ne_of_head 76 83 (86 :: 67 :: t) [] (by decide)

theorem key_lv_bal (t a : List Nat) : mk_lv_key t ≠ mk_balance_key a :=
  ne_of_head 76 66 (86 :: 67 :: t) a (by decide)

theorem key_lv_token (t u : List Nat) : mk_lv_key t ≠ mk_token_key u :=
  ne_of_head 76 84 (86 :: 67 :: t) u (by decide)

theorem key_lv_meta (t u : List Nat) : mk_lv_key t ≠ mk_meta_key u :=
  ne_of_head 76 77 (86 :: 67 :: t) u (by decide)

theorem key_lv_account (t o u : List Nat) : mk_lv_key t ≠ mkAccountKey o ++ u :=
  ne_of_head 76 65 (86 :: 67 :: t) (o ++ u) (by decide)

theorem key_lv_tc (t : List Nat) : mk_lv_key t ≠ TOKEN_COUNT :=
  ne_of_head 76 84 (86 :: 67 :: t) [67] (by decide)

theorem key_account_inj (o t a : List Nat) (ho : o.length = 20) (ha : a.length = 20) :
    mkAccountKey o ++ t = mkAccountKey a ++ u → o = a := by
  intro h
  simp only [mkAccountKey, List.cons_append, List.cons.injEq] at h
  exact List.append_inj_left h.2 (ho.trans ha.symm)

theorem inv_mint_chain (s : Storage) (tid : Int) (account meta locked tok : List Nat)
    (hInv : Inv s) (hlen : account.length = 20)
    (htok : ∃ rest : List Nat, tok = 71 :: rest)
    (hfresh : sget s (mk_token_key tok) = none) :
    Inv (add_to_supply
          (add_to_balance_fn
            (set_owner_of
              (add_meta
                (add_locked_content
                  (add_token (sput s TOKEN_COUNT (Val.int tid)) account tok)
                  tok locked)
                tok meta)
              tok account)
            account 1)
          1) := by
  obtain ⟨hnd, hbal, hsup, hown, htc⟩ := hInv
  obtain ⟨rest, htokeq⟩ := htok
  have htok67 : tok ≠ [67] := by rw [htokeq]; simp
  have hKTC : mk_token_key tok ≠ TOKEN_COUNT := by
    intro he
    rw [htokeq] at he
    simp [mk_token_key, TOKEN_PFX, TOKEN_COUNT] at he
  have hTCK : TOKEN_COUNT ≠ mk_token_key tok := fun he => hKTC he.symm
  set sA := sput s TOKEN_COUNT (Val.int tid) with hsAdef
  set sB := add_token sA account tok with hsBdef
  set sC := add_locked_content sB tok locked with hsCdef
  set sD := add_meta sC tok meta with hsDdef
  set sE := set_owner_of sD tok account with hsEdef
  set sF := add_to_balance_fn sE account 1 with hsFdef
  have hndA : NodupKeys sA := nodupKeys_sput _ _ _ hnd
  have hndB : NodupKeys sB := by rw [hsBdef, add_token]; exact nodupKeys_sput _ _ _ hndA
  have hndC : NodupKeys sC := by
    rw [hsCdef, add_locked_content]; exact nodupKeys_sput _ _ _ hndB
  have hndD : NodupKeys sD := by rw [hsDdef, add_meta]; exact nodupKeys_sput _ _ _ hndC
  have hndE : NodupKeys sE := by rw [hsEdef, set_owner_of]; exact nodupKeys_sput _ _ _ hndD
  have hndF : NodupKeys sF := by
    rw [hsFdef]; exact nodup_add_to_balance_fn _ _ _ hndE
  -- reads of any balance key pass unchanged from s to sE
  have hbalchain : ∀ a : List Nat,
      sget sE (mk_balance_key a) = sget s (mk_balance_key a) := by
    intro a
    rw [hsEdef, set_owner_of, sget_sput_ne _ _ _ _ (key_bal_token a tok),
      hsDdef, add_meta, sget_sput_ne _ _ _ _ (key_bal_meta a tok),
      hsCdef, add_locked_content, sget_sput_ne _ _ _ _ (key_bal_locked a tok),
      hsBdef, add_token, sget_sput_ne _ _ _ _ (key_bal_account a account tok),
      hsAdef, sget_sput_ne _ _ _ _ (key_bal_tc a)]
  -- the token-owner key of tok stays absent down to sD
  have hfreshD : sget sD (mk_token_key tok) = none := by
    rw [hsDdef, add_meta, sget_sput_ne _ _ _ _ (key_token_meta tok tok),
      hsCdef, add_locked_content, sget_sput_ne _ _ _ _ (key_token_locked tok tok),
      hsBdef, add_token, sget_sput_ne _ _ _ _ (key_token_account tok account tok),
      hsAdef, sget_sput_ne _ _ _ _ hKTC]
    exact hfresh
  -- counting through the chain, for any token-entry predicate
  have hcnt : ∀ P : Key × Val → Bool,
      (∀ v0 : Val, P (SUPPLY_KEY, v0) = false) →
      (∀ a0 : List Nat, ∀ v0 : Val, P (mk_balance_key a0, v0) = false) →
      (∀ o0 t0 : List Nat, ∀ v0 : Val, P (mkAccountKey o0 ++ t0, v0) = false) →
      (∀ t0 : List Nat, ∀ v0 : Val, P (mk_meta_key t0, v0) = false) →
      (∀ t0 : List Nat, ∀ v0 : Val, P (mk_locked_key t0, v0) = false) →
      (∀ m : Int, P (TOKEN_COUNT, Val.int m) = false) →
      countP P (add_to_supply sF 1) =
        (if P (mk_token_key tok, Val.bytes account) then 1 else 0) + countP P s := by
    intro P hPs hPb hPa hPm hPl hPtc
    rw [add_to_supply, countP_sput_frame P sF _ _ hndF hPs]
    rw [hsFdef, countP_add_to_balance_fn_frame P sE account 1 hndE (hPb account)]
    rw [hsEdef, set_owner_of, countP_sput_fresh P sD _ _ hfreshD]
    rw [hsDdef, add_meta, countP_sput_frame P sC _ _ hndC (hPm tok)]
    rw [hsCdef, add_locked_content, countP_sput_frame P sB _ _ hndB (hPl tok)]
    rw [hsBdef, add_token, countP_sput_frame P sA _ _ hndA (hPa account tok)]
    rw [hsAdef, countP_sput_int_frame P s _ tid hnd hPtc htc]
  refine ⟨?_, ?_, ?_, ?_, ?_⟩
  · exact nodupKeys_sput _ _ _ hndF
  · intro a ha
    have hcntA := hcnt (isOwnedEntry a) (fun _ => rfl) (fun _ _ => rfl)
      (fun _ _ _ => rfl) (fun _ _ => rfl) (fun _ _ => rfl) (fun _ => rfl)
    have hread : balRead (add_to_supply sF 1) a = valToInt (sget sF (mk_balance_key a)) := by
      rw [balRead, add_to_supply, sget_sput_ne _ _ _ _ (key_bal_supply a)]
    by_cases hacc : a = account
    · subst hacc
      have hold : valToInt (sget sE (mk_balance_key a)) = (ownedCount s a : Int) := by
        rw [hbalchain a]; exact hbal a ha
      have hpos : (0 : Int) < valToInt (sget sE (mk_balance_key a)) + 1 := by
        rw [hold]; omega
      have hsfget : sget sF (mk_balance_key a) =
          some (Val.int (valToInt (sget sE (mk_balance_key a)) + 1)) := by
        rw [hsFdef, add_to_balance_fn, if_pos hpos, sget_sput_same]
      rw [hold] at hsfget
      have hPtrue : isOwnedEntry a (mk_token_key tok, Val.bytes a) = true := by
        simp [mk_token_key, TOKEN_PFX, isOwnedEntry]
      have hfinal : ownedCount (add_to_supply sF 1) a = 1 + ownedCount s a := by
        simp only [ownedCount] at hcntA ⊢
        rw [hcntA, hPtrue]
        simp
      rw [hread, hsfget, valToInt_some_int, hfinal]
      omega
    · have hkne : mk_balance_key a ≠ mk_balance_key account := by
        simp [mk_balance_key, hacc]
      have hsfget : sget sF (mk_balance_key a) = sget sE (mk_balance_key a) := by
        rw [hsFdef, sget_add_to_balance_fn_ne _ _ _ _ hkne]
      have hPfalse : isOwnedEntry a (mk_token_key tok, Val.bytes account) = false := by
        have hne2 : ¬ (account = a) := fun he => hacc he.symm
        simp [mk_token_key, TOKEN_PFX, isOwnedEntry, hne2]
      have hfinal : ownedCount (add_to_supply sF 1) a = ownedCount s a := by
        simp only [ownedCount] at hcntA ⊢
        rw [hcntA, hPfalse]
        simp
      rw [hread, hsfget, hbalchain a, hfinal]
      exact hbal a ha
  · have hcntL := hcnt isLiveEntry (fun _ => rfl) (fun _ _ => rfl)
      (fun _ _ _ => rfl) (fun _ _ => rfl) (fun _ _ => rfl) (fun _ => rfl)
    have hsupF : totalSupply sF = totalSupply s := by
      rw [totalSupply, hsFdef,
        sget_add_to_balance_fn_ne _ _ _ _ (key_supply_bal account),
        hsEdef, set_owner_of, sget_sput_ne _ _ _ _ (key_supply_token tok),
        hsDdef, add_meta, sget_sput_ne _ _ _ _ (key_supply_meta tok),
        hsCdef, add_locked_content, sget_sput_ne _ _ _ _ (key_supply_locked tok),
        hsBdef, add_token, sget_sput_ne _ _ _ _ (key_supply_account account tok),
        hsAdef, sget_sput_ne _ _ _ _ key_supply_tc, totalSupply]
    have hPtrue : isLiveEntry (mk_token_key tok, Val.bytes account) = true := by
      simp [mk_token_key, TOKEN_PFX, isLiveEntry]
    have hstep : totalSupply (add_to_supply sF 1) = totalSupply sF + 1 := by
      rw [totalSupply, add_to_supply, sget_sput_same, valToInt_some_int]
    have hfinal : liveCount (add_to_supply sF 1) = 1 + liveCount s := by
      simp only [liveCount] at hcntL ⊢
      rw [hcntL, hPtrue]
      simp
    rw [hstep, hsupF, hsup, hfinal]
    omega
  · intro t v ht hv
    rw [add_to_supply, sget_sput_ne _ _ _ _ (key_token_supply t),
      hsFdef, sget_add_to_balance_fn_ne _ _ _ _ (key_token_bal t account),
      hsEdef, set_owner_of] at hv
    by_cases hteq : mk_token_key t = mk_token_key tok
    · rw [hteq, sget_sput_same] at hv
      have hveq : Val.bytes account = v := by injection hv
      exact ⟨account, hveq.symm, hlen⟩
    · rw [sget_sput_ne _ _ _ _ hteq,
        hsDdef, add_meta, sget_sput_ne _ _ _ _ (key_token_meta t tok),
        hsCdef, add_locked_content, sget_sput_ne _ _ _ _ (key_token_locked t tok),
        hsBdef, add_token, sget_sput_ne _ _ _ _ (key_token_account t account tok),
        hsAdef] at hv
      have hne : mk_token_key t ≠ TOKEN_COUNT := by
        intro he
        apply ht
        simpa [mk_token_key, TOKEN_PFX, TOKEN_COUNT] using he
      rw [sget_sput_ne _ _ _ _ hne] at hv
      exact hown t v ht hv
  · right
    refine ⟨tid, ?_⟩
    rw [add_to_supply, sget_sput_ne _ _ _ _ key_tc_supply,
      hsFdef, sget_add_to_balance_fn_ne _ _ _ _ (key_tc_bal account),
      hsEdef, set_owner_of, sget_sput_ne _ _ _ _ hTCK,
      hsDdef, add_meta, sget_sput_ne _ _ _ _ (key_tc_meta tok),
      hsCdef, add_locked_content, sget_sput_ne _ _ _ _ (key_tc_locked tok),
      hsBdef, add_token, sget_sput_ne _ _ _ _ (key_tc_account account tok),
      hsAdef, sget_sput_same]

theorem inv_burn_chain (s : Storage) (o token : List Nat)
    (hInv : Inv s) (ht67 : token ≠ [67])
    (hov : sget s (mk_token_key token) = some (Val.bytes o)) (holen : o.length = 20) :
    Inv (add_to_supply
          (add_to_balance_fn
            (remove_owner_of (remove_meta (remove_token s o token) token) token)
            o (-1))
          (-1)) := by
  obtain ⟨hnd, hbal, hsup, hown, htc⟩ := hInv
  have hTCK : TOKEN_COUNT ≠ mk_token_key token := by
    intro he
    apply ht67
    have h2 : ([67] : List Nat) = token := by
      simpa [TOKEN_COUNT, mk_token_key, TOKEN_PFX] using he
    exact h2.symm
  set sA := remove_token s o token with hsAdef
  set sB := remove_meta sA token with hsBdef
  set sC := remove_owner_of sB token with hsCdef
  set sD := add_to_balance_fn sC o (-1) with hsDdef
  have hndA : NodupKeys sA := by rw [hsAdef, remove_token]; exact nodupKeys_sdel _ _ hnd
  have hndB : NodupKeys sB := by rw [hsBdef, remove_meta]; exact nodupKeys_sdel _ _ hndA
  have hndC : NodupKeys sC := by
    rw [hsCdef, remove_owner_of]; exact nodupKeys_sdel _ _ hndB
  have hndD : NodupKeys sD := by rw [hsDdef]; exact nodup_add_to_balance_fn _ _ _ hndC
  have hovB : sget sB (mk_token_key token) = some (Val.bytes o) := by
    rw [hsBdef, remove_meta, sget_sdel_ne _ _ _ (key_token_meta token token),
      hsAdef, remove_token, sget_sdel_ne _ _ _ (key_token_account token o token)]
    exact hov
  have hbalC : ∀ a : List Nat, sget sC (mk_balance_key a) = sget s (mk_balance_key a) := by
    intro a
    rw [hsCdef, remove_owner_of, sget_sdel_ne _ _ _ (key_bal_token a token),
      hsBdef, remove_meta, sget_sdel_ne _ _ _ (key_bal_meta a token),
      hsAdef, remove_token, sget_sdel_ne _ _ _ (key_bal_account a o token)]
  have hcnt : ∀ P : Key × Val → Bool,
      (∀ v0 : Val, P (SUPPLY_KEY, v0) = false) →
      (∀ a0 : List Nat, ∀ v0 : Val, P (mk_balance_key a0, v0) = false) →
      (∀ o0 t0 : List Nat, ∀ v0 : Val, P (mkAccountKey o0 ++ t0, v0) = false) →
      (∀ t0 : List Nat, ∀ v0 : Val, P (mk_meta_key t0, v0) = false) →
      countP P (add_to_supply sD (-1)) +
        (if P (mk_token_key token, Val.bytes o) then 1 else 0) = countP P s := by
    intro P hPs hPb hPa hPm
    rw [add_to_supply, countP_sput_frame P sD _ _ hndD hPs]
    rw [hsDdef, countP_add_to_balance_fn_frame P sC o (-1) hndC (hPb o)]
    rw [hsCdef, remove_owner_of]
    rw [countP_sdel_known P sB _ _ hndB hovB]
    rw [hsBdef, remove_meta, countP_sdel_frame P sA _ hndA (hPm token)]
    rw [hsAdef, remove_token, countP_sdel_frame P s _ hnd (hPa o token)]
  refine ⟨?_, ?_, ?_, ?_, ?_⟩
  · exact nodupKeys_sput _ _ _ hndD
  · intro a ha
    have hcntA := hcnt (isOwnedEntry a) (fun _ => rfl) (fun _ _ => rfl)
      (fun _ _ _ => rfl) (fun _ _ => rfl)
    have hread : balRead (add_to_supply sD (-1)) a =
        valToInt (sget sD (mk_balance_key a)) := by
      rw [balRead, add_to_supply, sget_sput_ne _ _ _ _ (key_bal_supply a)]
    by_cases hacc : a = o
    · subst hacc
      have hPtrue : isOwnedEntry a (mk_token_key token, Val.bytes a) = true := by
        simp [mk_token_key, TOKEN_PFX, isOwnedEntry]
      have hgeone : 1 ≤ ownedCount s a :=
        countP_pos_of_sget (isOwnedEntry a) s _ _ hnd hov hPtrue
      have holdC : valToInt (sget sC (mk_balance_key a)) = (ownedCount s a : Int) := by
        rw [hbalC a]; exact hbal a ha
      have hreadD : valToInt (sget sD (mk_balance_key a)) = (ownedCount s a : Int) - 1 := by
        by_cases hb : (0 : Int) < valToInt (sget sC (mk_balance_key a)) + (-1)
        · rw [hsDdef, add_to_balance_fn, if_pos hb, sget_sput_same, valToInt_some_int,
            holdC]
          ring
        · rw [hsDdef, add_to_balance_fn, if_neg hb, sget_sdel_same, valToInt_none]
          rw [holdC] at hb
          omega
      rw [hPtrue] at hcntA
      simp only [if_true] at hcntA
      have hfinal : ownedCount (add_to_supply sD (-1)) a = ownedCount s a - 1 := by
        simp only [ownedCount] at hcntA ⊢
        omega
      rw [hread, hreadD, hfinal]
      omega
    · have hkne : mk_balance_key a ≠ mk_balance_key o := by
        simp [mk_balance_key, hacc]
      have hPfalse : isOwnedEntry a (mk_token_key token, Val.bytes o) = false := by
        have hne2 : ¬ (o = a) := fun he => hacc he.symm
        simp [mk_token_key, TOKEN_PFX, isOwnedEntry, hne2]
      rw [hPfalse] at hcntA
      simp only [Bool.false_eq_true, if_false, Nat.add_zero] at hcntA
      have hreadD2 : sget sD (mk_balance_key a) = sget s (mk_balance_key a) := by
        rw [hsDdef, sget_add_to_balance_fn_ne _ _ _ _ hkne, hbalC a]
      have hfinal : ownedCount (add_to_supply sD (-1)) a = ownedCount s a := by
        simp only [ownedCount] at hcntA ⊢
        omega
      rw [hread, hreadD2, hfinal]
      exact hbal a ha
  · have hcntL := hcnt isLiveEntry (fun _ => rfl) (fun _ _ => rfl)
      (fun _ _ _ => rfl) (fun _ _ => rfl)
    have hPtrue : isLiveEntry (mk_token_key token, Val.bytes o) = true := by
      simp [mk_token_key, TOKEN_PFX, isLiveEntry]
    have hgeone : 1 ≤ liveCount s :=
      countP_pos_of_sget isLiveEntry s _ _ hnd hov hPtrue
    rw [hPtrue] at hcntL
    simp only [if_true] at hcntL
    have hsupD : totalSupply sD = totalSupply s := by
      rw [totalSupply, hsDdef, sget_add_to_balance_fn_ne _ _ _ _ (key_supply_bal o),
        hsCdef, remove_owner_of, sget_sdel_ne _ _ _ (key_supply_token token),
        hsBdef, remove_meta, sget_sdel_ne _ _ _ (key_supply_meta token),
        hsAdef, remove_token, sget_sdel_ne _ _ _ (key_supply_account o token),
        totalSupply]
    have hstep : totalSupply (add_to_supply sD (-1)) = totalSupply sD + (-1) := by
      rw [totalSupply, add_to_supply, sget_sput_same, valToInt_some_int]
    have hfinal : liveCount (add_to_supply sD (-1)) = liveCount s - 1 := by
      simp only [liveCount] at hcntL ⊢
      omega
    rw [hstep, hsupD, hsup, hfinal]
    omega
  · intro t v ht hv
    rw [add_to_supply, sget_sput_ne _ _ _ _ (key_token_supply t),
      hsDdef, sget_add_to_balance_fn_ne _ _ _ _ (key_token_bal t o),
      hsCdef, remove_owner_of] at hv
    by_cases hteq : mk_token_key t = mk_token_key token
    · rw [hteq, sget_sdel_same] at hv
      exact absurd hv (by simp)
    · rw [sget_sdel_ne _ _ _ hteq,
        hsBdef, remove_meta, sget_sdel_ne _ _ _ (key_token_meta t token),
        hsAdef, remove_token, sget_sdel_ne _ _ _ (key_token_account t o token)] at hv
      exact hown t v ht hv
  · rw [add_to_supply]
    have hTCread : sget sD TOKEN_COUNT = sget s TOKEN_COUNT := by
      rw [hsDdef, sget_add_to_balance_fn_ne _ _ _ _ (key_tc_bal o),
        hsCdef, remove_owner_of, sget_sdel_ne _ _ _ hTCK,
        hsBdef, remove_meta, sget_sdel_ne _ _ _ (key_tc_meta token),
        hsAdef, remove_token, sget_sdel_ne _ _ _ (key_tc_account o token)]
    rw [sget_sput_ne _ _ _ _ key_tc_supply, hTCread]
    exact htc

theorem inv_transfer_chain (s : Storage) (o to_address token : List Nat)
    (hInv : Inv s) (ht67 : token ≠ [67])
    (hov : sget s (mk_token_key token) = some (Val.bytes o)) (holen : o.length = 20)
    (htolen : to_address.length = 20) (hneq : o ≠ to_address) :
    Inv (set_owner_of
          (add_token
            (add_to_balance_fn
              (remove_token (add_to_balance_fn s o (-1)) o token)
              to_address 1)
            to_address token)
          token to_address) := by
  obtain ⟨hnd, hbal, hsup, hown, htc⟩ := hInv
  have hTCK : TOKEN_COUNT ≠ mk_token_key token := by
    intro he
    apply ht67
    have h2 : ([67] : List Nat) = token := by
      simpa [TOKEN_COUNT, mk_token_key, TOKEN_PFX] using he
    exact h2.symm
  have hbalno : mk_balance_key o ≠ mk_balance_key to_address := by
    simp [mk_balance_key, hneq]
  have hbalnto : mk_balance_key to_address ≠ mk_balance_key o := fun he => hbalno he.symm
  set sA := add_to_balance_fn s o (-1) with hsAdef
  set sB := remove_token sA o token with hsBdef
  set sC := add_to_balance_fn sB to_address 1 with hsCdef
  set sD := add_token sC to_address token with hsDdef
  have hndA : NodupKeys sA := by rw [hsAdef]; exact nodup_add_to_balance_fn _ _ _ hnd
  have hndB : NodupKeys sB := by rw [hsBdef, remove_token]; exact nodupKeys_sdel _ _ hndA
  have hndC : NodupKeys sC := by rw [hsCdef]; exact nodup_add_to_balance_fn _ _ _ hndB
  have hndD : NodupKeys sD := by rw [hsDdef, add_token]; exact nodupKeys_sput _ _ _ hndC
  have hovD : sget sD (mk_token_key token) = some (Val.bytes o) := by
    rw [hsDdef, add_token, sget_sput_ne _ _ _ _ (key_token_account token to_address token),
      hsCdef, sget_add_to_balance_fn_ne _ _ _ _ (key_token_bal token to_address),
      hsBdef, remove_token, sget_sdel_ne _ _ _ (key_token_account token o token),
      hsAdef, sget_add_to_balance_fn_ne _ _ _ _ (key_token_bal token o)]
    exact hov
  have hcnt : ∀ P : Key × Val → Bool,
      (∀ a0 : List Nat, ∀ v0 : Val, P (mk_balance_key a0, v0) = false) →
      (∀ o0 t0 : List Nat, ∀ v0 : Val, P (mkAccountKey o0 ++ t0, v0) = false) →
      countP P (set_owner_of sD token to_address) +
          (if P (mk_token_key token, Val.bytes o) then 1 else 0) =
        countP P s + (if P (mk_token_key token, Val.bytes to_address) then 1 else 0) := by
    intro P hPb hPa
    rw [set_owner_of, countP_sput_replace P sD _ _ _ hndD hovD]
    rw [hsDdef, add_token, countP_sput_frame P sC _ _ hndC (hPa to_address token)]
    rw [hsCdef, countP_add_to_balance_fn_frame P sB to_address 1 hndB (hPb to_address)]
    rw [hsBdef, remove_token, countP_sdel_frame P sA _ hndA (hPa o token)]
    rw [hsAdef, countP_add_to_balance_fn_frame P s o (-1) hnd (hPb o)]
  refine ⟨?_, ?_, ?_, ?_, ?_⟩
  · rw [set_owner_of]; exact nodupKeys_sput _ _ _ hndD
  · intro a ha
    have hcntA := hcnt (isOwnedEntry a) (fun _ _ => rfl) (fun _ _ _ => rfl)
    have hread : balRead (set_owner_of sD token to_address) a =
        valToInt (sget sD (mk_balance_key a)) := by
      rw [balRead, set_owner_of, sget_sput_ne _ _ _ _ (key_bal_token a token)]
    by_cases hao : a = o
    · subst hao
      have hPtrue : isOwnedEntry a (mk_token_key token, Val.bytes a) = true := by
        simp [mk_token_key, TOKEN_PFX, isOwnedEntry]
      have hPfalse : isOwnedEntry a (mk_token_key token, Val.bytes to_address) = false := by
        have hne2 : ¬ (to_address = a) := fun he => hneq he.symm
        simp [mk_token_key, TOKEN_PFX, isOwnedEntry, hne2]
      have hgeone : 1 ≤ ownedCount s a :=
        countP_pos_of_sget (isOwnedEntry a) s _ _ hnd hov hPtrue
      have holdA : valToInt (sget s (mk_balance_key a)) = (ownedCount s a : Int) :=
        hbal a ha
      have hreadD : valToInt (sget sD (mk_balance_key a)) = (ownedCount s a : Int) - 1 := by
        rw [hsDdef, add_token, sget_sput_ne _ _ _ _ (key_bal_account a to_address token),
          hsCdef, sget_add_to_balance_fn_ne _ _ _ _ hbalno,
          hsBdef, remove_token, sget_sdel_ne _ _ _ (key_bal_account a a token), hsAdef]
        by_cases hb : (0 : Int) < valToInt (sget s (mk_balance_key a)) + (-1)
        · rw [add_to_balance_fn, if_pos hb, sget_sput_same, valToInt_some_int, holdA]
          ring
        · rw [add_to_balance_fn, if_neg hb, sget_sdel_same, valToInt_none]
          rw [holdA] at hb
          omega
      rw [hPtrue, hPfalse] at hcntA
      simp only [if_true, Bool.false_eq_true, if_false, Nat.add_zero] at hcntA
      rw [hread, hreadD]
      have hfinal : ownedCount (set_owner_of sD token to_address) a =
          ownedCount s a - 1 := by
        simp only [ownedCount] at hcntA ⊢
        omega
      rw [hfinal]
      omega
    · by_cases hat : a = to_address
      · subst hat
        have hPfalse : isOwnedEntry a (mk_token_key token, Val.bytes o) = false := by
          have hne2 : ¬ (o = a) := fun he => hao he.symm
          simp [mk_token_key, TOKEN_PFX, isOwnedEntry, hne2]
        have hPtrue : isOwnedEntry a (mk_token_key token, Val.bytes a) = true := by
          simp [mk_token_key, TOKEN_PFX, isOwnedEntry]
        have holdB : valToInt (sget sB (mk_balance_key a)) = (ownedCount s a : Int) := by
          rw [hsBdef, remove_token, sget_sdel_ne _ _ _ (key_bal_account a o token),
            hsAdef, sget_add_to_balance_fn_ne _ _ _ _ hbalnto]
          exact hbal a ha
        have hpos : (0 : Int) < valToInt (sget sB (mk_balance_key a)) + 1 := by
          rw [holdB]; omega
        have hreadD : valToInt (sget sD (mk_balance_key a)) = (ownedCount s a : Int) + 1 := by
          rw [hsDdef, add_token, sget_sput_ne _ _ _ _ (key_bal_account a a token),
            hsCdef, add_to_balance_fn, if_pos hpos, sget_sput_same, valToInt_some_int,
            holdB]
        rw [hPtrue, hPfalse] at hcntA
        simp only [if_true, Bool.false_eq_true, if_false, Nat.add_zero] at hcntA
        rw [hread, hreadD]
        have hfinal : ownedCount (set_owner_of sD token a) a =
            ownedCount s a + 1 := by
          simp only [ownedCount] at hcntA ⊢
          omega
        rw [hfinal]
        omega
      · have hPfo : isOwnedEntry a (mk_token_key token, Val.bytes o) = false := by
          have hne2 : ¬ (o = a) := fun he => hao he.symm
          simp [mk_token_key, TOKEN_PFX, isOwnedEntry, hne2]
        have hPft : isOwnedEntry a (mk_token_key token, Val.bytes to_address) = false := by
          have hne2 : ¬ (to_address = a) := fun he => hat he.symm
          simp [mk_token_key, TOKEN_PFX, isOwnedEntry, hne2]
        have hknea : mk_balance_key a ≠ mk_balance_key o := by
          simp [mk_balance_key, hao]
        have hkneb : mk_balance_key a ≠ mk_balance_key to_address := by
          simp [mk_balance_key, hat]
        rw [hPfo, hPft] at hcntA
        simp only [Bool.false_eq_true, if_false, Nat.add_zero] at hcntA
        have hreadD : sget sD (mk_balance_key a) = sget s (mk_balance_key a) := by
          rw [hsDdef, add_token,
            sget_sput_ne _ _ _ _ (key_bal_account a to_address token),
            hsCdef, sget_add_to_balance_fn_ne _ _ _ _ hkneb,
            hsBdef, remove_token, sget_sdel_ne _ _ _ (key_bal_account a o token),
            hsAdef, sget_add_to_balance_fn_ne _ _ _ _ hknea]
        have hfinal : ownedCount (set_owner_of sD token to_address) a = ownedCount s a := by
          simp only [ownedCount] at hcntA ⊢
          omega
        rw [hread, hreadD, hfinal]
        exact hbal a ha
  · have hcntL := hcnt isLiveEntry (fun _ _ => rfl) (fun _ _ _ => rfl)
    have hPo : isLiveEntry (mk_token_key token, Val.bytes o) = true := by
      simp [mk_token_key, TOKEN_PFX, isLiveEntry]
    have hPt : isLiveEntry (mk_token_key token, Val.bytes to_address) = true := by
      simp [mk_token_key, TOKEN_PFX, isLiveEntry]
    rw [hPo, hPt] at hcntL
    simp only [if_true] at hcntL
    have hsupchain : totalSupply (set_owner_of sD token to_address) = totalSupply s := by
      rw [totalSupply, set_owner_of, sget_sput_ne _ _ _ _ (key_supply_token token),
        hsDdef, add_token, sget_sput_ne _ _ _ _ (key_supply_account to_address token),
        hsCdef, sget_add_to_balance_fn_ne _ _ _ _ (key_supply_bal to_address),
        hsBdef, remove_token, sget_sdel_ne _ _ _ (key_supply_account o token),
        hsAdef, sget_add_to_balance_fn_ne _ _ _ _ (key_supply_bal o), totalSupply]
    have hfinal : liveCount (set_owner_of sD token to_address) = liveCount s := by
      simp only [liveCount] at hcntL ⊢
      omega
    rw [hsupchain, hfinal]
    exact hsup
  · intro t v ht hv
    rw [set_owner_of] at hv
    by_cases hteq : mk_token_key t = mk_token_key token
    · rw [hteq, sget_sput_same] at hv
      have hveq : Val.bytes to_address = v := by injection hv
      exact ⟨to_address, hveq.symm, htolen⟩
    · rw [sget_sput_ne _ _ _ _ hteq,
        hsDdef, add_token, sget_sput_ne _ _ _ _ (key_token_account t to_address token),
        hsCdef, sget_add_to_balance_fn_ne _ _ _ _ (key_token_bal t to_address),
        hsBdef, remove_token, sget_sdel_ne _ _ _ (key_token_account t o token),
        hsAdef, sget_add_to_balance_fn_ne _ _ _ _ (key_token_bal t o)] at hv
      exact hown t v ht hv
  · rw [set_owner_of, sget_sput_ne _ _ _ _ hTCK,
      hsDdef, add_token, sget_sput_ne _ _ _ _ (key_tc_account to_address token),
      hsCdef, sget_add_to_balance_fn_ne _ _ _ _ (key_tc_bal to_address),
      hsBdef, remove_token, sget_sdel_ne _ _ _ (key_tc_account o token),
      hsAdef, sget_add_to_balance_fn_ne _ _ _ _ (key_tc_bal o)]
    exact htc

/-! Inversion lemmas: what a successful outcome implies about the inputs and
the produced state. -/

theorem mint_inversion (feeOk : Bool) (H : Int) (d : Option Int) (s : Storage)
    (account meta locked : List Nat) (s2 : Storage) (tok : List Nat) (ev : List Event)
    (hok : mint feeOk H d s account meta locked = Except.ok (s2, tok, ev)) :
    ¬ get_mint_fee s < 0 ∧ feeOk = true ∧ account.length = 20 ∧
      s2 = mintedStorage H d s account meta locked ∧ tok = mintedToken H d s := by
  by_cases hfee : get_mint_fee s < 0
  · rw [mint_fee_negative feeOk H d s account meta locked hfee] at hok
    exact absurd hok (by simp)
  · cases feeOk with
    | false =>
        rw [mint_fee_payment_failed H d s account meta locked hfee] at hok
        exact absurd hok (by simp)
    | true =>
        by_cases hlen : account.length = 20
        · rw [mint_ok H d s account meta locked hfee hlen] at hok
          simp only [Except.ok.injEq, Prod.mk.injEq] at hok
          exact ⟨hfee, rfl, hlen, hok.1.symm, hok.2.1.symm⟩
        · exfalso
          simp [mint, internal_mint, hfee, add_to_balance, hlen] at hok

theorem burn_inversion (w : Oracle) (s : Storage) (token : List Nat)
    (s2 : Storage) (b : Bool) (ev : List Event)
    (hok : burn w s token = Except.ok (s2, b, ev)) :
    (checkWitness w (get_owner_of s token) = false ∧ s2 = s) ∨
    (checkWitness w (get_owner_of s token) = true ∧
      s2 = add_to_supply
            (add_to_balance_fn
              (remove_owner_of
                (remove_meta (remove_token s (get_owner_of s token) token) token)
                token)
              (get_owner_of s token) (-1))
            (-1)) := by
  by_cases hw : checkWitness w (get_owner_of s token) = true
  · right
    rw [burn_ok w s token hw] at hok
    simp only [Except.ok.injEq, Prod.mk.injEq] at hok
    exact ⟨hw, hok.1.symm⟩
  · left
    have hw2 : checkWitness w (get_owner_of s token) = false := by simpa using hw
    rw [burn_soft w s token hw2] at hok
    simp only [Except.ok.injEq, Prod.mk.injEq] at hok
    exact ⟨hw2, hok.1.symm⟩

theorem transfer_inversion (w : Oracle) (s : Storage) (to_address tokenId : List Nat)
    (s2 : Storage) (b : Bool) (ev : List Event)
    (hok : transfer w s to_address tokenId = Except.ok (s2, b, ev)) :
    to_address.length = 20 ∧
    ((checkWitness w (get_owner_of s tokenId) = false ∧ s2 = s) ∨
     (checkWitness w (get_owner_of s tokenId) = true ∧
       get_owner_of s tokenId = to_address ∧ s2 = s) ∨
     (checkWitness w (get_owner_of s tokenId) = true ∧
       get_owner_of s tokenId ≠ to_address ∧
       s2 = set_owner_of
              (add_token
                (add_to_balance_fn
                  (remove_token (add_to_balance_fn s (get_owner_of s tokenId) (-1))
                    (get_owner_of s tokenId) tokenId)
                  to_address 1)
                to_address tokenId)
              tokenId to_address)) := by
  by_cases hlen : to_address.length = 20
  · refine ⟨hlen, ?_⟩
    by_cases hw : checkWitness w (get_owner_of s tokenId) = true
    · by_cases hne : get_owner_of s tokenId = to_address
      · refine Or.inr (Or.inl ⟨hw, hne, ?_⟩)
        rw [← hne] at hok
        rw [transfer_self w s tokenId hw] at hok
        simp only [Except.ok.injEq, Prod.mk.injEq] at hok
        exact hok.1.symm
      · refine Or.inr (Or.inr ⟨hw, hne, ?_⟩)
        rw [transfer_move w s to_address tokenId hlen hw hne] at hok
        simp only [Except.ok.injEq, Prod.mk.injEq] at hok
        exact hok.1.symm
    · have hw2 : checkWitness w (get_owner_of s tokenId) = false := by simpa using hw
      rw [transfer_soft w s to_address tokenId hlen hw2] at hok
      simp only [Except.ok.injEq, Prod.mk.injEq] at hok
      exact Or.inl ⟨hw2, hok.1.symm⟩
  · exfalso
    simp [transfer, hlen] at hok

/-- Main induction: the accounting invariant holds in every collision-free
reachable state. -/
theorem inv_of_reachableFresh (s : Storage) (h : ReachableFresh s) : Inv s := by
  induction h with
  | base => exact inv_initState
  | step_mint s s2 feeOk H d account meta locked tok ev hr hok hfresh ih =>
      obtain ⟨hfee, hfeeOk, hlen, hs2, htok⟩ :=
        mint_inversion feeOk H d s account meta locked s2 tok ev hok
      subst hs2
      subst htok
      have htokshape : ∃ rest : List Nat, mintedToken H d s = 71 :: rest :=
        ⟨72 :: 79 :: 83 :: 84 :: intToBytesLE (nftDataOf H d s), rfl⟩
      exact inv_mint_chain s (valToInt (sget s TOKEN_COUNT) + 1) account meta locked
        (mintedToken H d s) ih hlen htokshape hfresh
  | step_burn s s2 w token b ev hr hok h67 ih =>
      rcases burn_inversion w s token s2 b ev hok with ⟨_, rfl⟩ | ⟨hw, hs2⟩
      · exact ih
      · subst hs2
        have hwlen := checkWitness_length w _ hw
        cases hcase : sget s (mk_token_key token) with
        | none =>
            exfalso
            rw [get_owner_of, hcase] at hwlen
            simp [valToBytes] at hwlen
        | some v =>
            obtain ⟨o, hveq, holen⟩ := ih.2.2.2.1 token v h67 hcase
            subst hveq
            have hoeq : get_owner_of s token = o := by
              rw [get_owner_of, hcase]
              rfl
            rw [hoeq]
            exact inv_burn_chain s o token ih h67 hcase holen
  | step_transfer s s2 w to_address token b ev hr hok h67 ih =>
      obtain ⟨hlen, hcases⟩ := transfer_inversion w s to_address token s2 b ev hok
      rcases hcases with ⟨_, rfl⟩ | ⟨_, _, rfl⟩ | ⟨hw, hne, hs2⟩
      · exact ih
      · exact ih
      · subst hs2
        have hwlen := checkWitness_length w _ hw
        cases hcase : sget s (mk_token_key token) with
        | none =>
            exfalso
            rw [get_owner_of, hcase] at hwlen
            simp [valToBytes] at hwlen
        | some v =>
            obtain ⟨o, hveq, holen⟩ := ih.2.2.2.1 token v h67 hcase
            subst hveq
            have hoeq : get_owner_of s token = o := by
              rw [get_owner_of, hcase]
              rfl
            rw [hoeq] at hne ⊢
            exact inv_transfer_chain s o to_address token ih h67 hcase holen hlen hne

/-! Read lemmas on the post-state of a successful mint. -/

theorem mintedToken_shape (H : Int) (d : Option Int) (s : Storage) :
    mintedToken H d s = 71 :: (72 :: 79 :: 83 :: 84 :: intToBytesLE (nftDataOf H d s)) :=
  rfl

theorem mintedToken_ne_67 (H : Int) (d : Option Int) (s : Storage) :
    mintedToken H d s ≠ [67] := by
  rw [mintedToken_shape]
  simp

theorem key_tc_mintedToken (H : Int) (d : Option Int) (s : Storage) :
    TOKEN_COUNT ≠ mk_token_key (mintedToken H d s) := by
  intro he
  have h2 : ([67] : List Nat) = mintedToken H d s := by
    simpa [TOKEN_COUNT, mk_token_key, TOKEN_PFX] using he
  exact mintedToken_ne_67 H d s h2.symm

theorem mintedStorage_owner (H : Int) (d : Option Int) (s : Storage)
    (account meta locked : List Nat) :
    sget (mintedStorage H d s account meta locked)
        (mk_token_key (mintedToken H d s)) = some (Val.bytes account) := by
  rw [mintedStorage, add_to_supply,
    sget_sput_ne _ _ _ _ (key_token_supply (mintedToken H d s)),
    sget_add_to_balance_fn_ne _ _ _ _ (key_token_bal (mintedToken H d s) account),
    set_owner_of, sget_sput_same]

theorem mintedStorage_other_token (H : Int) (d : Option Int) (s : Storage)
    (account meta locked u : List Nat) (hu : u ≠ mintedToken H d s) (h67 : u ≠ [67]) :
    sget (mintedStorage H d s account meta locked) (mk_token_key u) =
      sget s (mk_token_key u) := by
  have hne : mk_token_key u ≠ mk_token_key (mintedToken H d s) := by
    simp [mk_token_key, hu]
  have hne2 : mk_token_key u ≠ TOKEN_COUNT := by
    intro he
    apply h67
    have h2 : (TOKEN_PFX :: u : List Nat) = TOKEN_PFX :: [67] := he
    exact ((List.cons.injEq _ _ _ _).mp h2).2
  rw [mintedStorage, add_to_supply,
    sget_sput_ne _ _ _ _ (key_token_supply u),
    sget_add_to_balance_fn_ne _ _ _ _ (key_token_bal u account),
    set_owner_of, sget_sput_ne _ _ _ _ hne,
    add_meta, sget_sput_ne _ _ _ _ (key_token_meta u (mintedToken H d s)),
    add_locked_content, sget_sput_ne _ _ _ _ (key_token_locked u (mintedToken H d s)),
    add_token, sget_sput_ne _ _ _ _ (key_token_account u account (mintedToken H d s)),
    sget_sput_ne _ _ _ _ hne2]

theorem mintedStorage_tc (H : Int) (d : Option Int) (s : Storage)
    (account meta locked : List Nat) :
    sget (mintedStorage H d s account meta locked) TOKEN_COUNT =
      some (Val.int (valToInt (sget s TOKEN_COUNT) + 1)) := by
  rw [mintedStorage, add_to_supply, sget_sput_ne _ _ _ _ key_tc_supply,
    sget_add_to_balance_fn_ne _ _ _ _ (key_tc_bal account),
    set_owner_of, sget_sput_ne _ _ _ _ (key_tc_mintedToken H d s),
    add_meta, sget_sput_ne _ _ _ _ (key_tc_meta (mintedToken H d s)),
    add_locked_content, sget_sput_ne _ _ _ _ (key_tc_locked (mintedToken H d s)),
    add_token, sget_sput_ne _ _ _ _ (key_tc_account account (mintedToken H d s)),
    sget_sput_same]

theorem mintedStorage_supply (H : Int) (d : Option Int) (s : Storage)
    (account meta locked : List Nat) :
    totalSupply (mintedStorage H d s account meta locked) = totalSupply s + 1 := by
  rw [mintedStorage, add_to_supply]
  rw [show totalSupply
      (sput
        (add_to_balance_fn
          (set_owner_of
            (add_meta
              (add_locked_content
                (add_token (sput s TOKEN_COUNT (Val.int (valToInt (sget s TOKEN_COUNT) + 1)))
                  account (mintedToken H d s))
                (mintedToken H d s) locked)
              (mintedToken H d s) meta)
            (mintedToken H d s) account)
          account 1)
        SUPPLY_KEY
        (Val.int
          (totalSupply
            (add_to_balance_fn
              (set_owner_of
                (add_meta
                  (add_locked_content
                    (add_token (sput s TOKEN_COUNT (Val.int (valToInt (sget s TOKEN_COUNT) + 1)))
                      account (mintedToken H d s))
                    (mintedToken H d s) locked)
                  (mintedToken H d s) meta)
                (mintedToken H d s) account)
              account 1) + 1))) =
      totalSupply
        (add_to_balance_fn
          (set_owner_of
            (add_meta
              (add_locked_content
                (add_token (sput s TOKEN_COUNT (Val.int (valToInt (sget s TOKEN_COUNT) + 1)))
                  account (mintedToken H d s))
                (mintedToken H d s) locked)
              (mintedToken H d s) meta)
            (mintedToken H d s) account)
          account 1) + 1 by
    rw [totalSupply, sget_sput_same, valToInt_some_int]]
  congr 1
  rw [totalSupply,
    sget_add_to_balance_fn_ne _ _ _ _ (key_supply_bal account),
    set_owner_of, sget_sput_ne _ _ _ _ (key_supply_token (mintedToken H d s)),
    add_meta, sget_sput_ne _ _ _ _ (key_supply_meta (mintedToken H d s)),
    add_locked_content, sget_sput_ne _ _ _ _ (key_supply_locked (mintedToken H d s)),
    add_token, sget_sput_ne _ _ _ _ (key_supply_account account (mintedToken H d s)),
    sget_sput_ne _ _ _ _ key_supply_tc, totalSupply]

/-! Locked-content access lemmas. -/

theorem getLockedContent_ok (w : Oracle) (s : Storage) (token : List Nat)
    (hw : checkWitness w (get_owner_of s token) = true) :
    getLockedContent w s token =
      Except.ok (incr_locked_view_counter s token, get_locked_content s token) := by
  have hcontent : get_locked_content (incr_locked_view_counter s token) token =
      get_locked_content s token := by
    rw [get_locked_content, incr_locked_view_counter,
      sget_sput_ne _ _ _ _ (key_locked_lv token token), get_locked_content]
  simp [getLockedContent, hw, hcontent]

theorem getLockedContent_denied (w : Oracle) (s : Storage) (token : List Nat)
    (hw : checkWitness w (get_owner_of s token) = false) :
    getLockedContent w s token = Except.error Err.prohibitedAccess := by
  simp [getLockedContent, hw]

theorem incr_view_counter_adds_one (s : Storage) (token : List Nat) :
    get_locked_view_counter (incr_locked_view_counter s token) token =
      get_locked_view_counter s token + 1 := by
  rw [get_locked_view_counter, incr_locked_view_counter, sget_sput_same,
    valToInt_some_int, get_locked_view_counter]

/-! Correctness of the little-endian integer encoding on non-negative
integers, giving injectivity of derived token identifiers. -/

theorem bytesToNat_natToBytesAux (fuel : Nat) :
    ∀ n : Nat, n ≤ fuel → bytesToNatLE (natToBytesAux fuel n) = n := by
  induction fuel with
  | zero =>
      intro n hn
      interval_cases n
      rfl
  | succ fuel ih =>
      intro n hn
      cases n with
      | zero => rfl
      | succ m =>
          have hdiv : (m + 1) / 256 ≤ fuel := by
            have := Nat.div_lt_self (Nat.succ_pos m) (by decide : 1 < 256)
            omega
          rw [natToBytesAux, bytesToNatLE, ih _ hdiv]
          have h1 : (m + 1) % 256 < 256 := Nat.mod_lt _ (by decide)
          have h2 := Nat.mod_add_div (m + 1) 256
          have h3 : (m + 1) % 256 % 256 = (m + 1) % 256 := Nat.mod_eq_of_lt h1
          omega

theorem bytesToNat_natToBytesLE (n : Nat) : bytesToNatLE (natToBytesLE n) = n :=
  bytesToNat_natToBytesAux n n le_rfl

theorem bytesToNat_append_zero (bs : List Nat) :
    bytesToNatLE (bs ++ [0]) = bytesToNatLE bs := by
  induction bs with
  | nil => rfl
  | cons b t ih => rw [List.cons_append, bytesToNatLE, ih, bytesToNatLE]

theorem bytesToNat_intToBytesLE (n : Int) (h : 0 ≤ n) :
    bytesToNatLE (intToBytesLE n) = n.toNat := by
  rw [intToBytesLE, if_pos h]
  by_cases hm : msbSet (natToBytesLE n.toNat) = true
  · simp only [hm, if_true]
    rw [bytesToNat_append_zero, bytesToNat_natToBytesLE]
  · rw [Bool.not_eq_true] at hm
    simp only [hm, Bool.false_eq_true, if_false]
    rw [bytesToNat_natToBytesLE]

theorem intToBytesLE_inj_nonneg (a b : Int) (ha : 0 ≤ a) (hb : 0 ≤ b)
    (h : intToBytesLE a = intToBytesLE b) : a = b := by
  have h2 := congrArg bytesToNatLE h
  rw [bytesToNat_intToBytesLE a ha, bytesToNat_intToBytesLE b hb] at h2
  omega

theorem mintedToken_inj (H1 H2 : Int) (d1 d2 : Option Int) (s1 s2 : Storage)
    (h1 : 0 ≤ nftDataOf H1 d1 s1) (h2 : 0 ≤ nftDataOf H2 d2 s2)
    (hne : nftDataOf H1 d1 s1 ≠ nftDataOf H2 d2 s2) :
    mintedToken H1 d1 s1 ≠ mintedToken H2 d2 s2 := by
  intro he
  rw [mintedToken, mintedToken] at he
  have henc := List.append_cancel_left he
  exact hne (intToBytesLE_inj_nonneg _ _ h1 h2 henc)

/-! Canonicity of the authorized-address list serialization. -/

theorem desAux_serializeAddrs (l : List (List Nat)) :
    ∀ fuel : Nat, (serializeAddrs l).length ≤ fuel →
      desAux fuel (serializeAddrs l) = some l := by
  induction l with
  | nil => intro fuel _; cases fuel <;> rfl
  | cons a rest ih =>
      intro fuel hf
      rw [serializeAddrs] at hf ⊢
      cases fuel with
      | zero =>
          rw [List.length_cons] at hf
          exact absurd hf (Nat.not_succ_le_zero _)
      | succ f =>
          rw [desAux]
          have hle : a.length ≤ (a ++ serializeAddrs rest).length := by
            rw [List.length_append]; omega
          rw [if_pos hle, List.take_left, List.drop_left]
          have hrest : (serializeAddrs rest).length ≤ f := by
            rw [List.length_cons, List.length_append] at hf
            omega
          rw [ih f hrest]
          rfl

theorem deserializeAddrs_serializeAddrs (l : List (List Nat)) :
    deserializeAddrs (serializeAddrs l) = some l :=
  desAux_serializeAddrs l _ le_rfl

theorem desAux_canonical (fuel : Nat) :
    ∀ bs : List Nat, ∀ l : List (List Nat),
      desAux fuel bs = some l → bs = serializeAddrs l := by
  induction fuel with
  | zero =>
      intro bs l h
      cases bs with
      | nil =>
          simp only [desAux] at h
          cases h
          rfl
      | cons n rest => exact absurd h (by simp [desAux])
  | succ f ih =>
      intro bs l h
      cases bs with
      | nil =>
          simp only [desAux] at h
          cases h
          rfl
      | cons n rest =>
          rw [desAux] at h
          by_cases hle : n ≤ rest.length
          · rw [if_pos hle] at h
            cases hdes : desAux f (rest.drop n) with
            | none => rw [hdes] at h; exact absurd h (by simp)
            | some l2 =>
                rw [hdes] at h
                simp only [Option.map_some', Option.some.injEq] at h
                have hrec := ih (rest.drop n) l2 hdes
                rw [← h, serializeAddrs, ← hrec]
                have htk : (rest.take n).length = n := by
                  rw [List.length_take]
                  omega
                rw [htk, List.take_append_drop]
          · rw [if_neg hle] at h
            exact absurd h (by simp)

theorem deserializeAddrs_canonical (bs : List Nat) (l : List (List Nat))
    (h : deserializeAddrs bs = some l) : bs = serializeAddrs l :=
  desAux_canonical bs.length bs l h

/-! Concrete demonstration states used by counterexamples and witnesses. -/

/-- Storage projection of a successful mint result. -/
def okS : Except Err (Storage × List Nat × List Event) → Storage
  | Except.ok (s, _, _) => s
  | Except.error _ => []

/-- Token projection of a successful mint result. -/
def okTok : Except Err (Storage × List Nat × List Event) → List Nat
  | Except.ok (_, t, _) => t
  | Except.error _ => []

/-- Event projection of a successful mint result. -/
def okEv : Except Err (Storage × List Nat × List Event) → List Event
  | Except.ok (_, _, e) => e
  | Except.error _ => []

/-- Storage projection of a successful burn or transfer result. -/
def okSB : Except Err (Storage × Bool × List Event) → Storage
  | Except.ok (s, _, _) => s
  | Except.error _ => []

/-- Demonstration account address (20 bytes). -/
def addrA : List Nat := List.replicate 20 1

/-- Second demonstration account address (20 bytes). -/
def addrB : List Nat := List.replicate 20 2

/-- Witness oracle authorizing exactly addrA. -/
def demoOracleA : Oracle := fun h => h == addrA

/-- State after deploy and one mint by addrA, in a transaction whose hash
reads as the integer 100 (metadata [1], locked content [2]). -/
def demoS1 : Storage := okS (mint true 100 none initState addrA [1] [2])

/-- Token identifier allocated by that first mint:
`GHOST` followed by the encoding of 100 + 1. -/
def demoTok : List Nat := [71, 72, 79, 83, 84, 101]

/-- Transfer event fired by the first demonstration mint. -/
def demoEv1 : List Event := [Event.transferE none (some addrA) 1 demoTok]

/-- State after a second mint by addrB in a transaction whose hash reads as
99: the derived identifier 99 + 2 collides with demoTok. -/
def demoS2 : Storage := okS (mint true 99 none demoS1 addrB [3] [4])

/-- Transfer event fired by the second demonstration mint. -/
def demoEv2 : List Event := [Event.transferE none (some addrB) 1 demoTok]

/-- State after burning demoTok from demoS1 with addrA's witness. -/
def demoBurnS : Storage := okSB (burn demoOracleA demoS1 demoTok)

/-! Claim C1. -/

/-- C1: the public `ownerOf` is claimed to return the 20-byte address stored
as the token's owner.  The source body of `ownerOf` is empty (it consists
only of its docstring, with no return statement), so the operation returns
no value for every live token, while the internal `get_owner_of` read —
which `transfer`/`burn` use — does return the stored owner.  At the concrete
reachable state demoS1 with live token demoTok owned by addrA, `ownerOf`
yields nothing although the TokenOwner entry holds addrA.  This contradicts
the claim, the NEP-11 standard and the function's own docstring: a code bug,
not a specification error. -/
theorem C1_ownerOf_empty_body :
    ownerOf demoS1 demoTok = none ∧
    sget demoS1 (mk_token_key demoTok) = some (Val.bytes addrA) ∧
    get_owner_of demoS1 demoTok = addrA ∧
    Reachable demoS1 :=
  ⟨rfl, by decide, by decide,
    Reachable.step_mint initState demoS1 true 100 none addrA [1] [2] demoTok demoEv1
      Reachable.base rfl⟩

/-! Claim C2. -/

/-- C2 counterexample: the claim says burn removes the LockedContent entry
(only the ViewCounter may remain).  Burning demoTok — live, owned by the
witness-authorized addrA — succeeds and removes the TokenOwner entry, yet
the LockedContent entry written at mint time (payload [2]) is still present
afterwards: `internal_burn` never calls `remove_locked_content`. -/
theorem C2_burn_keeps_locked_content :
    burn demoOracleA demoS1 demoTok =
      Except.ok (demoBurnS, true, [Event.transferE (some addrA) none 1 demoTok]) ∧
    sget demoBurnS (mk_token_key demoTok) = none ∧
    sget demoBurnS (mk_locked_key demoTok) = some (Val.bytes [2]) := by
  refine ⟨rfl, by decide, by decide⟩

/-- C2 (amended): for a live token with witness-authorized owner, burn
returns success, removes the TokenOwner entry, the OwnerToken index entry
and the Metadata entry, decrements the owner's balance by 1 and the supply
by 1, and fires a transfer-to-null notification — but both the LockedContent
entry and the ViewCounter entry remain unchanged (not only the ViewCounter,
as the claim stated). -/
theorem C2_burn_effects (w : Oracle) (s : Storage) (token o : List Nat)
    (hov : sget s (mk_token_key token) = some (Val.bytes o))
    (holen : o.length = 20) (hw : w o = true)
    (hbalpos : 1 ≤ balRead s o) :
    ∃ s2 : Storage,
      burn w s token = Except.ok (s2, true, [Event.transferE (some o) none 1 token]) ∧
      sget s2 (mk_token_key token) = none ∧
      sget s2 (mkAccountKey o ++ token) = none ∧
      sget s2 (mk_meta_key token) = none ∧
      sget s2 (mk_locked_key token) = sget s (mk_locked_key token) ∧
      sget s2 (mk_lv_key token) = sget s (mk_lv_key token) ∧
      balRead s2 o = balRead s o - 1 ∧
      totalSupply s2 = totalSupply s - 1 := by
  have hoeq : get_owner_of s token = o := by rw [get_owner_of, hov]; rfl
  have hcw : checkWitness w (get_owner_of s token) = true := by
    rw [hoeq]
    simp [checkWitness, holen, hw]
  have heff := burn_ok w s token hcw
  rw [hoeq] at heff
  have hbc : sget (remove_owner_of (remove_meta (remove_token s o token) token) token)
      (mk_balance_key o) = sget s (mk_balance_key o) := by
    rw [remove_owner_of, sget_sdel_ne _ _ _ (key_bal_token o token),
      remove_meta, sget_sdel_ne _ _ _ (key_bal_meta o token),
      remove_token, sget_sdel_ne _ _ _ (key_bal_account o o token)]
  refine ⟨_, heff, ?_, ?_, ?_, ?_, ?_, ?_, ?_⟩
  · rw [add_to_supply, sget_sput_ne _ _ _ _ (key_token_supply token),
      sget_add_to_balance_fn_ne _ _ _ _ (key_token_bal token o),
      remove_owner_of, sget_sdel_same]
  · rw [add_to_supply, sget_sput_ne _ _ _ _ (key_account_supply o token),
      sget_add_to_balance_fn_ne _ _ _ _ (key_account_bal o token o),
      remove_owner_of, sget_sdel_ne _ _ _ (key_account_token o token token),
      remove_meta, sget_sdel_ne _ _ _ (key_account_meta o token token),
      remove_token, sget_sdel_same]
  · rw [add_to_supply, sget_sput_ne _ _ _ _ (key_meta_supply token),
      sget_add_to_balance_fn_ne _ _ _ _ (key_meta_bal token o),
      remove_owner_of, sget_sdel_ne _ _ _ (key_meta_token token token),
      remove_meta, sget_sdel_same]
  · rw [add_to_supply, sget_sput_ne _ _ _ _ (key_locked_supply token),
      sget_add_to_balance_fn_ne _ _ _ _ (key_locked_bal token o),
      remove_owner_of, sget_sdel_ne _ _ _ (key_locked_token token token),
      remove_meta, sget_sdel_ne _ _ _ (key_locked_meta token token),
      remove_token, sget_sdel_ne _ _ _ (key_locked_account token o token)]
  · rw [add_to_supply, sget_sput_ne _ _ _ _ (key_lv_supply token),
      sget_add_to_balance_fn_ne _ _ _ _ (key_lv_bal token o),
      remove_owner_of, sget_sdel_ne _ _ _ (key_lv_token token token),
      remove_meta, sget_sdel_ne _ _ _ (key_lv_meta token token),
      remove_token, sget_sdel_ne _ _ _ (key_lv_account token o token)]
  · simp only [balRead] at hbalpos ⊢
    rw [add_to_supply, sget_sput_ne _ _ _ _ (key_bal_supply o)]
    by_cases hb : (0 : Int) <
        valToInt (sget (remove_owner_of (remove_meta (remove_token s o token) token)
          token) (mk_balance_key o)) + (-1)
    · rw [add_to_balance_fn, if_pos hb, sget_sput_same, valToInt_some_int, hbc]
      ring
    · rw [add_to_balance_fn, if_neg hb, sget_sdel_same, valToInt_none]
      rw [hbc] at hb
      omega
  · rw [totalSupply, add_to_supply, sget_sput_same, valToInt_some_int]
    rw [show totalSupply
        (add_to_balance_fn (remove_owner_of (remove_meta (remove_token s o token) token)
          token) o (-1)) = totalSupply s by
      rw [totalSupply, sget_add_to_balance_fn_ne _ _ _ _ (key_supply_bal o),
        remove_owner_of, sget_sdel_ne _ _ _ (key_supply_token token),
        remove_meta, sget_sdel_ne _ _ _ (key_supply_meta token),
        remove_token, sget_sdel_ne _ _ _ (key_supply_account o token), totalSupply]]
    ring

/-- C2 witness: the amended burn theorem applied at the concrete state
demoS1, token demoTok, owner addrA. -/
theorem C2_burn_effects_witness :
    ∃ s2 : Storage,
      burn demoOracleA demoS1 demoTok =
        Except.ok (s2, true, [Event.transferE (some addrA) none 1 demoTok]) ∧
      sget s2 (mk_token_key demoTok) = none ∧
      sget s2 (mkAccountKey addrA ++ demoTok) = none ∧
      sget s2 (mk_meta_key demoTok) = none ∧
      sget s2 (mk_locked_key demoTok) = sget demoS1 (mk_locked_key demoTok) ∧
      sget s2 (mk_lv_key demoTok) = sget demoS1 (mk_lv_key demoTok) ∧
      balRead s2 addrA = balRead demoS1 addrA - 1 ∧
      totalSupply s2 = totalSupply demoS1 - 1 :=
  C2_burn_effects demoOracleA demoS1 demoTok addrA (by decide) (by decide)
    (by decide) (by decide)

/-! Claim C3. -/

/-- C3: in any reachable state, transferring a live token to its own
(witness-authorized) owner returns true, fires a Transfer notification, and
returns the storage literally unchanged — the mutation branch of `transfer`
is skipped entirely when the destination equals the current owner. -/
theorem C3_self_transfer_noop (w : Oracle) (s : Storage) (t o : List Nat)
    (_hreach : Reachable s)
    (hov : sget s (mk_token_key t) = some (Val.bytes o))
    (hw : checkWitness w o = true) :
    transfer w s o t = Except.ok (s, true, [Event.transferE (some o) (some o) 1 t]) := by
  have hoeq : get_owner_of s t = o := by rw [get_owner_of, hov]; rfl
  have heff := transfer_self w s t (by rw [hoeq]; exact hw)
  rw [hoeq] at heff
  exact heff

/-- C3 witness: self-transfer of demoTok by its owner addrA in the reachable
state demoS1. -/
theorem C3_self_transfer_noop_witness :
    transfer demoOracleA demoS1 addrA demoTok =
      Except.ok (demoS1, true, [Event.transferE (some addrA) (some addrA) 1 demoTok]) :=
  C3_self_transfer_noop demoOracleA demoS1 demoTok addrA
    (Reachable.step_mint initState demoS1 true 100 none addrA [1] [2] demoTok demoEv1
      Reachable.base rfl)
    (by decide) (by decide)

/-! Claim C4. -/

/-- C4: in any reachable state, a transfer of a live token whose current
owner is not witness-authorized returns false (a soft failure, not an
aborting error) with the storage literally unchanged: balances, the
OwnerToken index and the TokenOwner entry all keep their prior values. -/
theorem C4_unauthorized_transfer_soft_fail (w : Oracle) (s : Storage)
    (to_address t o : List Nat) (_hreach : Reachable s)
    (hov : sget s (mk_token_key t) = some (Val.bytes o))
    (hw : w o = false) (hlen : to_address.length = 20) :
    transfer w s to_address t = Except.ok (s, false, []) := by
  have hoeq : get_owner_of s t = o := by rw [get_owner_of, hov]; rfl
  have hcw : checkWitness w (get_owner_of s t) = false := by
    rw [hoeq]
    simp [checkWitness, hw]
  exact transfer_soft w s to_address t hlen hcw

/-- C4 witness: an oracle authorizing nobody cannot move demoTok in the
reachable state demoS1. -/
theorem C4_unauthorized_transfer_soft_fail_witness :
    transfer (fun _ => false) demoS1 addrB demoTok =
      Except.ok (demoS1, false, []) :=
  C4_unauthorized_transfer_soft_fail (fun _ => false) demoS1 addrB demoTok addrA
    (Reachable.step_mint initState demoS1 true 100 none addrA [1] [2] demoTok demoEv1
      Reachable.base rfl)
    (by decide) rfl (by decide)

/-! Claim C5. -/

/-- C5: locked-content gating.  With the current owner's witness,
getLockedContent returns exactly the stored payload and increments the
token's view counter by exactly 1; without it, the call raises the hard
access-denied failure (which aborts the transaction, leaving the counter
unchanged — an error result carries no storage in this model). -/
theorem C5_locked_content_gating (w : Oracle) (s : Storage) (t o c : List Nat)
    (hov : sget s (mk_token_key t) = some (Val.bytes o))
    (hc : sget s (mk_locked_key t) = some (Val.bytes c)) :
    (checkWitness w o = true →
      getLockedContent w s t = Except.ok (incr_locked_view_counter s t, c) ∧
      get_locked_view_counter (incr_locked_view_counter s t) t =
        get_locked_view_counter s t + 1) ∧
    (checkWitness w o = false →
      getLockedContent w s t = Except.error Err.prohibitedAccess) := by
  have hoeq : get_owner_of s t = o := by rw [get_owner_of, hov]; rfl
  constructor
  · intro hw
    have heff := getLockedContent_ok w s t (by rw [hoeq]; exact hw)
    refine ⟨?_, incr_view_counter_adds_one s t⟩
    rw [heff, get_locked_content, hc]
    rfl
  · intro hw
    exact getLockedContent_denied w s t (by rw [hoeq]; exact hw)

/-- C5 witness: the owner addrA reads the locked payload [2] of demoTok and
the view counter grows by exactly one. -/
theorem C5_locked_content_gating_witness :
    getLockedContent demoOracleA demoS1 demoTok =
      Except.ok (incr_locked_view_counter demoS1 demoTok, [2]) ∧
    get_locked_view_counter (incr_locked_view_counter demoS1 demoTok) demoTok =
      get_locked_view_counter demoS1 demoTok + 1 :=
  (C5_locked_content_gating demoOracleA demoS1 demoTok addrA [2]
    (by decide) (by decide)).1 (by decide)

/-! Claim C6. -/

/-- C6: mint-fee gating.  A negative configured fee raises a hard failure
before any write; a failed external fee transfer raises a hard failure
before internal_mint runs — in both cases the transaction aborts with no
storage change (error results carry no storage).  With fee 0 and a
successful fee transfer, mint succeeds and writes exactly one TokenOwner
entry (the returned identifier, owned by the minting account, every other
identifier's entry unchanged), increments the token counter and the supply
by one, and fires the mint's transfer notification. -/
theorem C6_mint_fee_gating (feeOk : Bool) (H : Int) (d : Option Int) (s : Storage)
    (account meta locked : List Nat) (hlen : account.length = 20) :
    (get_mint_fee s < 0 →
      mint feeOk H d s account meta locked = Except.error Err.feeNegative) ∧
    (¬ get_mint_fee s < 0 →
      mint false H d s account meta locked = Except.error Err.feePaymentFailed) ∧
    (get_mint_fee s = 0 →
      ∃ s2 : Storage, ∃ t : List Nat,
        mint true H d s account meta locked =
          Except.ok (s2, t, [Event.transferE none (some account) 1 t]) ∧
        sget s2 (mk_token_key t) = some (Val.bytes account) ∧
        (∀ u : List Nat, u ≠ t → u ≠ [67] →
          sget s2 (mk_token_key u) = sget s (mk_token_key u)) ∧
        sget s2 TOKEN_COUNT = some (Val.int (valToInt (sget s TOKEN_COUNT) + 1)) ∧
        totalSupply s2 = totalSupply s + 1) := by
  refine ⟨fun hfee => mint_fee_negative feeOk H d s account meta locked hfee,
    fun hfee => mint_fee_payment_failed H d s account meta locked hfee,
    fun hfee0 => ?_⟩
  have hfee : ¬ get_mint_fee s < 0 := by rw [hfee0]; omega
  exact ⟨mintedStorage H d s account meta locked, mintedToken H d s,
    mint_ok H d s account meta locked hfee hlen,
    mintedStorage_owner H d s account meta locked,
    fun u hu h67 => mintedStorage_other_token H d s account meta locked u hu h67,
    mintedStorage_tc H d s account meta locked,
    mintedStorage_supply H d s account meta locked⟩

/-- C6 witness: on empty storage the fee reads 0, and a mint in a
transaction with hash value 5 creates exactly one token. -/
theorem C6_mint_fee_gating_witness :
    ∃ s2 : Storage, ∃ t : List Nat,
      mint true 5 none [] addrA [1] [2] =
        Except.ok (s2, t, [Event.transferE none (some addrA) 1 t]) ∧
      sget s2 (mk_token_key t) = some (Val.bytes addrA) ∧
      (∀ u : List Nat, u ≠ t → u ≠ [67] →
        sget s2 (mk_token_key u) = sget [] (mk_token_key u)) ∧
      sget s2 TOKEN_COUNT = some (Val.int (valToInt (sget [] TOKEN_COUNT) + 1)) ∧
      totalSupply s2 = totalSupply [] + 1 :=
  (C6_mint_fee_gating true 5 none [] addrA [1] [2] (by decide)).2.2 (by decide)

/-! Claim C7. -/

/-- C7 counterexample: the accounting invariant does not hold in every state
reachable by mint/burn/transfer.  Two mints in transactions whose hashes
read as 100 and 99 derive the same identifier demoTok (100 + 1 = 99 + 2),
so the second mint silently overwrites the first token's owner entry: in
the reachable state demoS2, balanceOf addrA answers 1 although addrA owns
no live token, and totalSupply answers 2 although only one token is live. -/
theorem C7_accounting_counterexample :
    Reachable demoS2 ∧
    balanceOf demoS2 addrA = Except.ok 1 ∧ ownedCount demoS2 addrA = 0 ∧
    totalSupply demoS2 = 2 ∧ liveCount demoS2 = 1 := by
  refine ⟨?_, rfl, by decide, by decide, by decide⟩
  exact Reachable.step_mint demoS1 demoS2 true 99 none addrB [3] [4] demoTok demoEv2
    (Reachable.step_mint initState demoS1 true 100 none addrA [1] [2] demoTok demoEv1
      Reachable.base rfl) rfl

/-- C7 (amended): in every state reachable from a fresh deploy by mint, burn
and transfer in which every successful mint's derived identifier was
previously unused, and burn/transfer are never invoked on the identifier
`C` (= [67], whose TokenOwner key aliases the token-counter key), every
20-byte address's balance equals the number of live tokens it owns, and the
total supply equals the number of live tokens. -/
theorem C7_accounting_invariant (s : Storage) (h : ReachableFresh s) :
    (∀ a : List Nat, a.length = 20 →
      balanceOf s a = Except.ok ((ownedCount s a : Int))) ∧
    totalSupply s = (liveCount s : Int) := by
  have hInv := inv_of_reachableFresh s h
  refine ⟨fun a ha => ?_, hInv.2.2.1⟩
  rw [balanceOf, if_pos ha]
  exact congrArg Except.ok (hInv.2.1 a ha)

/-- C7 witness: the amended invariant at the freshly deployed state. -/
theorem C7_accounting_invariant_witness :
    balanceOf initState addrA = Except.ok ((ownedCount initState addrA : Int)) ∧
    totalSupply initState = (liveCount initState : Int) :=
  ⟨(C7_accounting_invariant initState ReachableFresh.base).1 addrA (by decide),
   (C7_accounting_invariant initState ReachableFresh.base).2⟩

/-! Claim C8. -/

/-- C8 counterexample: token identifiers are not unique over the ledger's
lifetime.  The derivation adds the transaction hash, the counter and the
optional payload into a single integer, so distinct transactions can derive
the same identifier: the mint in a transaction with hash value 100 (counter
1) and the mint in a transaction with hash value 99 (counter 2) both return
demoTok = GHOST ++ [101]. -/
theorem C8_token_id_collision :
    mint true 100 none initState addrA [1] [2] =
      Except.ok (demoS1, demoTok, demoEv1) ∧
    mint true 99 none demoS1 addrB [3] [4] =
      Except.ok (demoS2, demoTok, demoEv2) :=
  ⟨rfl, rfl⟩

/-- C8 (amended): two successful mints with the same transaction hash and
the same optional payload (for instance two mints inside one transaction,
as multiMint performs) return distinct identifiers, because the counter
strictly increases between them; non-negativity of the derived integers
makes the byte encoding injective. -/
theorem C8_same_tx_mints_distinct (H : Int) (d : Option Int) (s s2 s3 : Storage)
    (a1 m1 l1 a2 m2 l2 t1 t2 : List Nat) (e1 e2 : List Event)
    (h1 : mint true H d s a1 m1 l1 = Except.ok (s2, t1, e1))
    (h2 : mint true H d s2 a2 m2 l2 = Except.ok (s3, t2, e2))
    (hpos1 : 0 ≤ nftDataOf H d s) (hpos2 : 0 ≤ nftDataOf H d s2) :
    t1 ≠ t2 := by
  obtain ⟨_, _, _, hs2, ht1⟩ := mint_inversion true H d s a1 m1 l1 s2 t1 e1 h1
  obtain ⟨_, _, _, _, ht2⟩ := mint_inversion true H d s2 a2 m2 l2 s3 t2 e2 h2
  subst ht1
  subst ht2
  apply mintedToken_inj H H d d s s2 hpos1 hpos2
  have htc : sget s2 TOKEN_COUNT =
      some (Val.int (valToInt (sget s TOKEN_COUNT) + 1)) := by
    rw [hs2]
    exact mintedStorage_tc H d s a1 m1 l1
  have hstep : nftDataOf H d s2 = nftDataOf H d s + 1 := by
    cases d with
    | none => simp only [nftDataOf, htc, valToInt_some_int]; ring
    | some dv => simp only [nftDataOf, htc, valToInt_some_int]; ring
  omega

/-- C8 witness: two consecutive mints in one transaction (hash value 5, no
payload) return distinct identifiers. -/
theorem C8_same_tx_mints_distinct_witness :
    okTok (mint true 5 none initState addrA [1] [2]) ≠
      okTok (mint true 5 none (okS (mint true 5 none initState addrA [1] [2]))
        addrB [3] [4]) :=
  C8_same_tx_mints_distinct 5 none initState
    (okS (mint true 5 none initState addrA [1] [2]))
    (okS (mint true 5 none (okS (mint true 5 none initState addrA [1] [2])) addrB [3] [4]))
    addrA [1] [2] addrB [3] [4]
    (okTok (mint true 5 none initState addrA [1] [2]))
    (okTok (mint true 5 none (okS (mint true 5 none initState addrA [1] [2])) addrB [3] [4]))
    (okEv (mint true 5 none initState addrA [1] [2]))
    (okEv (mint true 5 none (okS (mint true 5 none initState addrA [1] [2])) addrB [3] [4]))
    rfl rfl (by decide) (by decide)

/-! Claim C9. -/

/-- C9: adding an already-authorized address is idempotent.  With owner
authorization, set_authorized_address(a, true) for a member a returns true,
fires the Auth notification, and leaves every storage key — in particular
the stored address list — with its prior value: the membership loop finds
the address, nothing is appended, and the list written back is
byte-for-byte the prior serialization (the decoder is the inverse of the
canonical serializer). -/
theorem C9_authorized_add_idempotent (w : Oracle) (s : Storage) (address : List Nat)
    (bs : List Nat) (l : List (List Nat))
    (hw : w OWNER = true)
    (hauth : sget s AUTH_ADDRESSES = some (Val.bytes bs))
    (hdes : deserializeAddrs bs = some l)
    (hmem : address ∈ l) :
    ∃ s2 : Storage,
      set_authorized_address w s address true =
        Except.ok (s2, true, [Event.authE address true]) ∧
      ∀ k : Key, sget s2 k = sget s k := by
  have hlenO : (OWNER.length == 20) = true := by decide
  have hver : verify w = true := by
    rw [verify, checkWitness, hlenO, hw]
    rfl
  have hcanon := deserializeAddrs_canonical bs l hdes
  refine ⟨sput s AUTH_ADDRESSES (Val.bytes (serializeAddrs l)), ?_, ?_⟩
  · simp [set_authorized_address, hver, hauth, valToBytes, hdes, hmem]
  · intro k
    by_cases hk : k = AUTH_ADDRESSES
    · subst hk
      rw [sget_sput_same, hauth, hcanon]
    · rw [sget_sput_ne _ _ _ _ hk]

/-- C9 witness: re-adding the deployer OWNER, already the sole member of
the list after deploy, leaves the whole storage unchanged. -/
theorem C9_authorized_add_idempotent_witness :
    ∃ s2 : Storage,
      set_authorized_address (fun _ => true) initState OWNER true =
        Except.ok (s2, true, [Event.authE OWNER true]) ∧
      ∀ k : Key, sget s2 k = sget initState k :=
  C9_authorized_add_idempotent (fun _ => true) initState OWNER
    (serializeAddrs [OWNER]) [OWNER] rfl (by decide) (by decide) (by decide)

/-! Claim C10. -/

/-- C10: for an address that is not exactly 20 bytes, balanceOf, tokensOf
and transfer all terminate with the hard assertion failure.  The assertion
is the first statement of each operation, so the call aborts before any
storage key is read or written: the error outcome is a constant,
independent of the storage, and an aborting call reverts any write. -/
theorem C10_bad_address_asserts (s : Storage) (w : Oracle) (o t : List Nat)
    (hlen : o.length ≠ 20) :
    balanceOf s o = Except.error Err.assertFailed ∧
    tokensOf s o = Except.error Err.assertFailed ∧
    transfer w s o t = Except.error Err.assertFailed := by
  refine ⟨?_, ?_, ?_⟩ <;> simp [balanceOf, tokensOf, transfer, hlen]

/-- C10 witness: a 3-byte address is rejected by all three operations. -/
theorem C10_bad_address_asserts_witness :
    balanceOf initState [1, 2, 3] = Except.error Err.assertFailed ∧
    tokensOf initState [1, 2, 3] = Except.error Err.assertFailed ∧
    transfer demoOracleA initState [1, 2, 3] demoTok = Except.error Err.assertFailed :=
  C10_bad_address_asserts initState demoOracleA [1, 2, 3] demoTok (by decide)






end GhostMarket
